import Mathlib

/-!
Verification of the adaptive-card component (greentic-ai/component-adaptive-card).

This file gives a shallow embedding of the component's core logic — the
render/binding pipeline (src/render.rs), the structural validator and feature
analyzer (src/render.rs), the interaction handler (src/interaction.rs), the
path-addressed state store (src/state_store.rs) and the invocation entry point
(src/lib.rs) — and proves properties of that embedding.

Modelling conventions, chosen once and used throughout:

* JSON values (serde_json::Value) are the inductive type `Value`.  JSON
  objects are association lists in document order; serde_json's map type is
  key-sorted, which can only affect iteration order (the order in which
  validation issues from sibling keys are emitted, and tie-breaking of the
  first-writer-wins feature-requirement merge), never the result of any keyed
  lookup or mutation.  JSON numbers are modelled as integers; no property
  proved here exercises floating point.
* Rust string operations (trim, split, find, starts_with) are re-implemented
  over character lists, because the claims quantify over their behaviour; the
  whitespace class is the ASCII subset recognised by Char.isWhitespace.
* The external collaborators are parameters, collected in `RenderExt`: the
  handlebars template engine of pass A (an external crate; the development
  only relies on it being the identity on strings containing no template
  marker), the expression engine for non-simple expressions (src/expression.rs
  is not among the provided sources; theorems quantify over it), and
  asset/catalog file resolution (filesystem- and environment-dependent).
* The state backend is the in-memory key-value map of the non-wasm build,
  modelled as an association list of decoded documents; the serialize/parse
  round trip of persist/read is the identity on documents.
* Telemetry emission is gated on environment variables (GREENTIC_TRACE*) and
  is modelled in the disabled state: result telemetry lists are empty.  The
  observability counters of BindingSummary and the AssetResolution record
  feed only that telemetry and are omitted; they affect no control flow.
-/

set_option autoImplicit false

/-- JSON value tree, the embedding of serde_json::Value (numbers restricted
to integers, objects as association lists in document order). -/
inductive Value where
  | null
  | bool (b : Bool)
  | num (n : Int)
  | str (s : String)
  | arr (items : List Value)
  | obj (entries : List (String × Value))

/-- Association-list lookup: first entry with the given key, as in a map get. -/
def lookupEntry : List (String × Value) → String → Option Value
  | [], _ => none
  | (k0, v0) :: rest, k => if k0 = k then some v0 else lookupEntry rest k

/-- Association-list insert: replaces the value in place if the key exists,
appends otherwise (map insert semantics: one entry per key). -/
def insertEntry : List (String × Value) → String → Value → List (String × Value)
  | [], k, v => [(k, v)]
  | (k0, v0) :: rest, k, v =>
    if k0 = k then (k, v) :: rest else (k0, v0) :: insertEntry rest k v

/-- Association-list removal of the first entry with the given key. -/
def removeEntry : List (String × Value) → String → List (String × Value)
  | [], _ => []
  | (k0, v0) :: rest, k => if k0 = k then rest else (k0, v0) :: removeEntry rest k

/-- Key-membership test on an association list. -/
def containsKey (m : List (String × Value)) (k : String) : Bool :=
  (lookupEntry m k).isSome

/-- Value.is_null. -/
def Value.isNull : Value → Bool
  | .null => true
  | _ => false

/-- Value.is_object. -/
def Value.isObj : Value → Bool
  | .obj _ => true
  | _ => false

/-- Value.get with a string key: object member lookup, none on non-objects. -/
def Value.getKey : Value → String → Option Value
  | .obj m, k => lookupEntry m k
  | _, _ => none

/-- Value.as_str. -/
def Value.asStr : Value → Option String
  | .str s => some s
  | _ => none

/-- Value.as_bool. -/
def Value.asBool : Value → Option Bool
  | .bool b => some b
  | _ => none

/-- Value.as_object, returning the entry list. -/
def Value.asObjEntries : Value → Option (List (String × Value))
  | .obj m => some m
  | _ => none

/-- Value.as_f64 restricted to the integer numbers of this model (used by the
Input.Number min/max comparison). -/
def Value.asNum : Value → Option Int
  | .num n => some n
  | _ => none

/-- Value.as_array. -/
def Value.asArr : Value → Option (List Value)
  | .arr items => some items
  | _ => none

/-- Minimal JSON string-body escaping used by serialization (quote, backslash
and the common control characters; serde_json additionally \u-escapes other
control characters, which no value in this development contains). -/
def escapeChars : List Char → List Char
  | [] => []
  | c :: rest =>
    if c = '"' then '\\' :: '"' :: escapeChars rest
    else if c = '\\' then '\\' :: '\\' :: escapeChars rest
    else if c = '\n' then '\\' :: 'n' :: escapeChars rest
    else if c = '\t' then '\\' :: 't' :: escapeChars rest
    else if c = '\r' then '\\' :: 'r' :: escapeChars rest
    else c :: escapeChars rest

mutual
/-- Compact JSON serialization (serde_json to_string / Display for Value),
as a character list. -/
def serializeChars : Value → List Char
  | .null => "null".data
  | .bool true => "true".data
  | .bool false => "false".data
  | .num n => (toString n).data
  | .str s => '"' :: (escapeChars s.data ++ ['"'])
  | .arr items => '[' :: (serializeList items ++ [']'])
  | .obj entries => '{' :: (serializeEntries entries ++ ['}'])

/-- Serialization of array elements, comma separated. -/
def serializeList : List Value → List Char
  | [] => []
  | [v] => serializeChars v
  | v :: rest => serializeChars v ++ (',' :: serializeList rest)

/-- Serialization of object entries, comma separated. -/
def serializeEntries : List (String × Value) → List Char
  | [] => []
  | [(k, v)] => '"' :: (escapeChars k.data ++ ('"' :: ':' :: serializeChars v))
  | (k, v) :: rest =>
    '"' :: (escapeChars k.data ++ ('"' :: ':' :: serializeChars v)) ++
      (',' :: serializeEntries rest)
end

/-- Compact JSON serialization as a string (Value::to_string). -/
def serializeValue (v : Value) : String :=
  String.mk (serializeChars v)

/-- Whitespace skipped by the JSON parser. -/
def skipWs (l : List Char) : List Char :=
  l.dropWhile (fun c => c = ' ' ∨ c = '\t' ∨ c = '\n' ∨ c = '\r')

/-- Reads a JSON string body up to the closing quote, decoding the basic
escapes; returns the body and the remainder after the closing quote. -/
def takeStringBody : List Char → Option (List Char × List Char)
  | [] => none
  | c :: rest =>
    if c = '"' then some ([], rest)
    else if c = '\\' then
      match rest with
      | [] => none
      | e :: rest2 =>
        let dec : Option Char :=
          if e = '"' then some '"'
          else if e = '\\' then some '\\'
          else if e = '/' then some '/'
          else if e = 'n' then some '\n'
          else if e = 't' then some '\t'
          else if e = 'r' then some '\r'
          else none
        match dec with
        | none => none
        | some d =>
          match takeStringBody rest2 with
          | some (body, rem) => some (d :: body, rem)
          | none => none
    else
      match takeStringBody rest with
      | some (body, rem) => some (c :: body, rem)
      | none => none

/-- Digits-to-Nat accumulator for the JSON number parser. -/
def digitsToNat (acc : Nat) : List Char → Nat
  | [] => acc
  | c :: rest => digitsToNat (acc * 10 + (c.toNat - '0'.toNat)) rest

mutual
/-- Modelled from the spec and the serde_json crate (an external dependency;
only its observable from_str behaviour is needed): recursive-descent JSON
parser over a fuel bound, restricted to integer numerals and basic string
escapes — the fragment every literal evaluated in this development lies in.
Floating-point numerals are rejected rather than approximated. -/
def parseValueFuel : Nat → List Char → Option (Value × List Char)
  | 0, _ => none
  | fuel + 1, l =>
    match skipWs l with
    | [] => none
    | c :: rest =>
      if c = 'n' then
        match rest with
        | 'u' :: 'l' :: 'l' :: rem => some (.null, rem)
        | _ => none
      else if c = 't' then
        match rest with
        | 'r' :: 'u' :: 'e' :: rem => some (.bool true, rem)
        | _ => none
      else if c = 'f' then
        match rest with
        | 'a' :: 'l' :: 's' :: 'e' :: rem => some (.bool false, rem)
        | _ => none
      else if c = '"' then
        match takeStringBody rest with
        | some (body, rem) => some (.str (String.mk body), rem)
        | none => none
      else if c = '-' then
        match rest with
        | d :: _ =>
          if d.isDigit then
            let digits := rest.takeWhile Char.isDigit
            let rem := rest.dropWhile Char.isDigit
            match rem with
            | e :: _ =>
              if e = '.' ∨ e = 'e' ∨ e = 'E' then none
              else some (.num (-(Int.ofNat (digitsToNat 0 digits))), rem)
            | [] => some (.num (-(Int.ofNat (digitsToNat 0 digits))), [])
          else none
        | [] => none
      else if c.isDigit then
        let digits := (c :: rest).takeWhile Char.isDigit
        let rem := (c :: rest).dropWhile Char.isDigit
        match rem with
        | e :: _ =>
          if e = '.' ∨ e = 'e' ∨ e = 'E' then none
          else some (.num (Int.ofNat (digitsToNat 0 digits)), rem)
        | [] => some (.num (Int.ofNat (digitsToNat 0 digits)), [])
      else if c = '[' then
        match skipWs rest with
        | ']' :: rem => some (.arr [], rem)
        | _ =>
          match parseArrayItems fuel rest with
          | some (items, rem) => some (.arr items, rem)
          | none => none
      else if c = '{' then
        match skipWs rest with
        | '}' :: rem => some (.obj [], rem)
        | _ =>
          match parseObjEntries fuel rest with
          | some (entries, rem) => some (.obj entries, rem)
          | none => none
      else none

/-- Comma-separated array items up to the closing bracket. -/
def parseArrayItems : Nat → List Char → Option (List Value × List Char)
  | 0, _ => none
  | fuel + 1, l =>
    match parseValueFuel fuel l with
    | none => none
    | some (v, rem) =>
      match skipWs rem with
      | ',' :: rem2 =>
        match parseArrayItems fuel rem2 with
        | some (items, rem3) => some (v :: items, rem3)
        | none => none
      | ']' :: rem2 => some ([v], rem2)
      | _ => none

/-- Comma-separated key/value pairs up to the closing brace. -/
def parseObjEntries : Nat → List Char → Option (List (String × Value) × List Char)
  | 0, _ => none
  | fuel + 1, l =>
    match skipWs l with
    | '"' :: rest =>
      match takeStringBody rest with
      | none => none
      | some (key, rem) =>
        match skipWs rem with
        | ':' :: rem2 =>
          match parseValueFuel fuel rem2 with
          | none => none
          | some (v, rem3) =>
            match skipWs rem3 with
            | ',' :: rem4 =>
              match parseObjEntries fuel rem4 with
              | some (entries, rem5) => some ((String.mk key, v) :: entries, rem5)
              | none => none
            | '}' :: rem4 => some ([(String.mk key, v)], rem4)
            | _ => none
        | _ => none
    | _ => none
end

/-- Parses a complete JSON document (serde_json::from_str): the parsed value
with only trailing whitespace allowed after it. -/
def jsonParse (s : String) : Option Value :=
  match parseValueFuel (s.data.length + 1) s.data with
  | some (v, rem) => if skipWs rem = [] then some v else none
  | none => none

/-- CardSource (model.rs): where the card document comes from. -/
inductive CardSource where
  | inline
  | asset
  | catalog
  deriving DecidableEq

/-- CardSpec (model.rs). -/
structure CardSpec where
  inline_json : Option Value
  asset_path : Option String
  catalog_name : Option String
  template_params : Option Value
  asset_registry : Option (List (String × String))

/-- InvocationMode (model.rs). -/
inductive InvocationMode where
  | render
  | validate
  | renderAndValidate
  deriving DecidableEq

/-- ValidationMode (model.rs). -/
inductive ValidationMode where
  | off
  | warn
  | error
  deriving DecidableEq

/-- CardInteractionType (model.rs). -/
inductive CardInteractionType where
  | submit
  | execute
  | openUrl
  | showCard
  | toggleVisibility
  deriving DecidableEq

/-- CardInteraction (model.rs). -/
structure CardInteraction where
  enabled : Option Bool
  interaction_type : CardInteractionType
  action_id : String
  verb : Option String
  raw_inputs : Value
  card_instance_id : String
  metadata : Value

/-- AdaptiveCardInvocation (model.rs).  The host-opaque envelope metadata
field is carried by the Rust struct but never read by the modelled logic and
is omitted. -/
structure AdaptiveCardInvocation where
  card_source : CardSource
  card_spec : CardSpec
  node_id : Option String
  payload : Value
  session : Value
  state : Value
  interaction : Option CardInteraction
  mode : InvocationMode
  validation_mode : ValidationMode

/-- AdaptiveActionType (model.rs). -/
inductive AdaptiveActionType where
  | submit
  | execute
  | openUrl
  | showCard
  | toggleVisibility
  deriving DecidableEq

/-- AdaptiveActionEvent (model.rs). -/
structure AdaptiveActionEvent where
  action_type : AdaptiveActionType
  action_id : String
  verb : Option String
  route : Option String
  inputs : Value
  card_id : String
  card_instance_id : String
  subcard_id : Option String
  metadata : Value

/-- StateUpdateOp (model.rs). -/
inductive StateUpdateOp where
  | set (path : String) (value : Value)
  | merge (path : String) (value : Value)
  | delete (path : String)

/-- SessionUpdateOp (model.rs). -/
inductive SessionUpdateOp where
  | setRoute (route : String)
  | setAttribute (key : String) (value : Value)
  | deleteAttribute (key : String)
  | pushCardStack (card_id : String)
  | popCardStack

/-- CardFeatureSummary (model.rs). -/
structure CardFeatureSummary where
  version : Option String
  used_elements : List String
  used_actions : List String
  uses_show_card : Bool
  uses_toggle_visibility : Bool
  uses_media : Bool
  uses_auth : Bool
  requires_features : Value

/-- ValidationIssue (model.rs). -/
structure ValidationIssue where
  code : String
  message : String
  path : String
  deriving DecidableEq

/-- TelemetryEvent (model.rs). -/
structure TelemetryEvent where
  name : String
  properties : Value

/-- AdaptiveCardResult (model.rs). -/
structure AdaptiveCardResult where
  rendered_card : Option Value
  event : Option AdaptiveActionEvent
  state_updates : List StateUpdateOp
  session_updates : List SessionUpdateOp
  card_features : CardFeatureSummary
  validation_issues : List ValidationIssue
  telemetry_events : List TelemetryEvent

/-- ComponentError (error.rs).  Error payloads that wrap foreign error types
(serde_json::Error, std::io::Error) carry their rendered message. -/
inductive ComponentError where
  | invalidInput (msg : String)
  | serde (msg : String)
  | ioErr (msg : String)
  | assetNotFound (path : String)
  | assetParse (msg : String)
  | asset (msg : String)
  | binding (msg : String)
  | cardValidation (issues : List ValidationIssue)
  | interactionInvalid (msg : String)
  | stateStore (msg : String)

/-- Character-level split, the embedding of Rust str::split with a char
pattern: always returns at least one (possibly empty) piece. -/
def splitChar (c : Char) : List Char → List (List Char)
  | [] => [[]]
  | x :: xs =>
    if x = c then [] :: splitChar c xs
    else
      match splitChar c xs with
      | h :: t => (x :: h) :: t
      | [] => [[x]]

/-- Dot-separated path segments of a state path (path.split('.')). -/
def pathParts (path : String) : List String :=
  (splitChar '.' path.data).map String.mk

/-- The entry list a value contributes after ensure_object (state_store.rs):
an object keeps its entries, every other value is replaced by an empty
object. -/
def ensureEntries : Value → List (String × Value)
  | .obj m => m
  | _ => []

/-- set_path (state_store.rs) on pre-split segments: descend while coercing
every intermediate position to an object (creating missing segments), then
assign the final segment. -/
def setParts : Value → List String → Value → Value
  | _, [], value => value
  | v, [last], value => .obj (insertEntry (ensureEntries v) last value)
  | v, part :: rest, value =>
    let m := ensureEntries v
    let child := (lookupEntry m part).getD (.obj [])
    .obj (insertEntry m part (setParts child rest value))

/-- merge_path (state_store.rs) on pre-split segments: like set, except when
both the existing and the new value at the final segment are objects, a
shallow key union is performed in which the new keys win. -/
def mergeParts : Value → List String → Value → Value
  | _, [], value => value
  | v, [last], value =>
    let m := ensureEntries v
    match lookupEntry m last, value with
    | some (.obj existing), .obj update =>
      .obj (insertEntry m last (.obj (update.foldl (fun acc kv => insertEntry acc kv.1 kv.2) existing)))
    | _, other => .obj (insertEntry m last other)
  | v, part :: rest, value =>
    let m := ensureEntries v
    let child := (lookupEntry m part).getD (.obj [])
    .obj (insertEntry m part (mergeParts child rest value))

/-- delete_path (state_store.rs) on pre-split segments: remove the final
segment if every intermediate segment resolves through an existing object,
no-op otherwise. -/
def deleteParts : Value → List String → Value
  | _, [] => .null
  | v, [last] =>
    match v with
    | .obj m => .obj (removeEntry m last)
    | other => other
  | v, part :: rest =>
    match v with
    | .obj m =>
      match lookupEntry m part with
      | some child => .obj (insertEntry m part (deleteParts child rest))
      | none => .obj m
    | other => other

/-- set_path (state_store.rs). -/
def setPath (state : Value) (path : String) (value : Value) : Value :=
  setParts state (pathParts path) value

/-- merge_path (state_store.rs). -/
def mergePath (state : Value) (path : String) (value : Value) : Value :=
  mergeParts state (pathParts path) value

/-- delete_path (state_store.rs). -/
def deletePath (state : Value) (path : String) : Value :=
  deleteParts state (pathParts path)

/-- apply_updates (state_store.rs): fold the update batch over the document. -/
def applyUpdates (state : Value) : List StateUpdateOp → Value
  | [] => state
  | .set path value :: rest => applyUpdates (setPath state path value) rest
  | .merge path value :: rest => applyUpdates (mergePath state path value) rest
  | .delete path :: rest => applyUpdates (deletePath state path) rest

/-- state_key (state_store.rs): fixed-precedence derivation of the persisted
state key. -/
def stateKey (inv : AdaptiveCardInvocation) (interaction : Option CardInteraction) : String :=
  match inv.node_id with
  | some nid => "adaptive-card:node:" ++ nid
  | none =>
    match interaction with
    | some i => "adaptive-card:card:" ++ i.card_instance_id
    | none => "adaptive-card:default"

/-- The in-memory state backend of the non-wasm build: a key-value map,
modelled with decoded documents (persist serializes a document and read
parses it back; that round trip is the identity). -/
abbrev Store := List (String × String × Value)

/-- Backend read (read_bytes followed by read_state decoding). -/
def readStore : Store → String → Option Value
  | [], _ => none
  | (k, _, v) :: rest, key => if k = key then some v else readStore rest key

/-- Backend write: replaces the value stored under the key. -/
def writeStore : Store → String → Value → Store
  | [], key, v => [(key, serializeValue v, v)]
  | (k0, s0, v0) :: rest, key, v =>
    if k0 = key then (key, serializeValue v, v) :: rest
    else (k0, s0, v0) :: writeStore rest key v

/-- Backend delete: removes the key. -/
def deleteStore : Store → String → Store
  | [], _ => []
  | (k0, s0, v0) :: rest, key =>
    if k0 = key then rest else (k0, s0, v0) :: deleteStore rest key

/-- load_state_if_missing (state_store.rs): the store is consulted only when
the invocation state is null; a loaded document is written into the
invocation.  Returns the updated invocation and the loaded document. -/
def loadStateIfMissing (store : Store) (inv : AdaptiveCardInvocation)
    (interaction : Option CardInteraction) : AdaptiveCardInvocation × Option Value :=
  if inv.state.isNull = false then (inv, none)
  else
    match readStore store (stateKey inv interaction) with
    | some loaded => ({ inv with state := loaded }, some loaded)
    | none => (inv, none)

/-- persist_state (state_store.rs): a null document deletes the stored key,
any other document is serialized and stored whole. -/
def persistState (store : Store) (inv : AdaptiveCardInvocation)
    (interaction : Option CardInteraction) (state : Value) : Store :=
  if state.isNull then deleteStore store (stateKey inv interaction)
  else writeStore store (stateKey inv interaction) state

/-- Specification observer for state documents: resolves a segment chain
through object keys only, mirroring the descent used by delete_path.  Used
to state what a mutated document holds at a path. -/
def statePathGet : Value → List String → Option Value
  | v, [] => some v
  | .obj m, part :: rest =>
    match lookupEntry m part with
    | some child => statePathGet child rest
    | none => none
  | _, _ :: _ => none

/-- Trimmed character list, the embedding of Rust str::trim (whitespace as
recognised by Char.isWhitespace). -/
def trimChars (l : List Char) : List Char :=
  ((l.dropWhile Char.isWhitespace).reverse.dropWhile Char.isWhitespace).reverse

/-- Trim on strings. -/
def trimStr (s : String) : String :=
  String.mk (trimChars s.data)

/-- Character-list version of str::starts_with for a literal pattern. -/
def leadsWith : List Char → List Char → Bool
  | [], _ => true
  | _ :: _, [] => false
  | p :: ps, c :: cs => p = c && leadsWith ps cs

/-- Whether the two-character pattern a,b occurs anywhere in the list
(str::contains / str::find for a two-character literal). -/
def hasSubPair (a b : Char) : List Char → Bool
  | [] => false
  | [_] => false
  | x :: y :: rest => (x = a && y = b) || hasSubPair a b (y :: rest)

/-- Nonnegative integer parse for array indices (str::parse::<usize>). -/
def parseUsize (l : List Char) : Option Nat :=
  if l.isEmpty then none
  else if l.all Char.isDigit then some (digitsToNat 0 l) else none

/-- extract_expression (render.rs): a whole-string expression region — the
trimmed string between a leading dollar-brace and a trailing closing brace,
itself trimmed. -/
def extractExpression (input : String) : Option String :=
  let trimmed := trimChars input.data
  if leadsWith ['$', '{'] trimmed ∧ trimmed.getLast? = some '}' then
    some (String.mk (trimChars (trimmed.drop 2).dropLast))
  else none

/-- extract_single_placeholder (render.rs): a whole-string at-brace
placeholder, analogous to extract_expression. -/
def extractSinglePlaceholder (input : String) : Option String :=
  let trimmed := trimChars input.data
  if leadsWith ['@', '{'] trimmed ∧ trimmed.getLast? = some '}' then
    some (String.mk (trimChars (trimmed.drop 2).dropLast))
  else none

/-- is_simple_expression (render.rs): no whitespace, no question mark, no
double-equals, no colon. -/
def isSimpleExpression (expr : String) : Bool :=
  let trimmed := trimChars expr.data
  if trimmed.any Char.isWhitespace then false
  else ¬ trimmed.contains '?' ∧ ¬ hasSubPair '=' '=' trimmed ∧ ¬ trimmed.contains ':'

/-- Splits a character list at the first occurrence of the two-character
pattern a,b (str::splitn with a two-character separator): the part before and
the part after the separator. -/
def splitFirstPair (a b : Char) : List Char → Option (List Char × List Char)
  | [] => none
  | x :: rest =>
    if x = a ∧ rest.head? = some b then some ([], rest.tail)
    else
      match splitFirstPair a b rest with
      | some (before, after) => some (x :: before, after)
      | none => none

/-- parse_binding_path (render.rs): split a raw binding reference on the
double-pipe separator into the trimmed path and the optional default; a
non-empty default is parsed as JSON, or kept as a plain string when that
fails. -/
def parseBindingPath (raw : String) : String × Option Value :=
  match splitFirstPair '|' '|' raw.data with
  | none => (String.mk (trimChars raw.data), none)
  | some (before, after) =>
    let d := trimChars after
    (String.mk (trimChars before),
      if d.isEmpty then none
      else some ((jsonParse (String.mk d)).getD (.str (String.mk d))))

/-- Single-pass non-overlapping replacement of dot-dot by dot
(str::replace with a two-character pattern). -/
def collapseDotDot : List Char → List Char
  | '.' :: '.' :: rest => '.' :: collapseDotDot rest
  | c :: rest => c :: collapseDotDot rest
  | [] => []

/-- normalize_path (render.rs): brackets become dot separators, doubled dots
collapse, outer dots are trimmed. -/
def normalizePath (path : String) : String :=
  let step1 := path.data.map (fun c => if c = '[' then '.' else c)
  let step2 := step1.filter (fun c => c ≠ ']')
  let step3 := collapseDotDot step2
  String.mk ((step3.dropWhile (fun c => c = '.')).reverse.dropWhile (fun c => c = '.')).reverse

/-- lookup_in (render.rs): strict descent through objects by key and arrays
by numeric index. -/
def lookupIn : Value → List String → Option Value
  | v, [] => some v
  | .obj m, part :: rest =>
    match lookupEntry m part with
    | some child => lookupIn child rest
    | none => none
  | .arr items, part :: rest =>
    match parseUsize part.data with
    | some idx =>
      match items.get? idx with
      | some child => lookupIn child rest
      | none => none
    | none => none
  | _, _ :: _ => none

/-- BindingContext (render.rs): the read-only layered view over the four
binding roots. -/
structure BindingContext where
  payload : Value
  session : Value
  state : Value
  template_params : Value

/-- BindingContext::from_invocation. -/
def BindingContext.fromInvocation (inv : AdaptiveCardInvocation) : BindingContext :=
  { payload := inv.payload
    session := inv.session
    state := inv.state
    template_params := inv.card_spec.template_params.getD (.obj []) }

/-- The pre-default lookup outcome inside BindingContext::lookup: rooted
resolution when the first segment names a root, otherwise normalized probing
of payload, session, state and template parameters in that fixed order. -/
def BindingContext.lookupFound (ctx : BindingContext) (path : String) : Option Value :=
  match pathParts path with
  | [] => none
  | first :: rest =>
    if first = "payload" then lookupIn ctx.payload rest
    else if first = "session" then lookupIn ctx.session rest
    else if first = "state" then lookupIn ctx.state rest
    else if first = "params" ∨ first = "template" then lookupIn ctx.template_params rest
    else
      let nsegs := pathParts (normalizePath path)
      match lookupIn ctx.payload nsegs with
      | some v => some v
      | none =>
        match lookupIn ctx.session nsegs with
        | some v => some v
        | none =>
          match lookupIn ctx.state nsegs with
          | some v => some v
          | none => lookupIn ctx.template_params nsegs

/-- BindingContext::lookup (render.rs): default-coalescing on top of
lookupFound — a non-null hit is returned, a null or missing outcome falls
back to the parsed default when one is present, and otherwise the outcome
(including an explicit null) is returned as-is. -/
def BindingContext.lookup (ctx : BindingContext) (raw : String) : Option Value :=
  let pb := parseBindingPath raw
  match ctx.lookupFound pb.1, pb.2 with
  | some v, dflt =>
    if v.isNull then
      match dflt with
      | some fallback => some fallback
      | none => some v
    else some v
  | none, some fallback => some fallback
  | none, none => none

/-- Modelled from the spec: stringification of non-string substitution
results ("Non-string results are stringified on substitution",
stringify_value in src/expression.rs, which is not among the provided
sources): strings pass through, every other value serializes as JSON. -/
def stringifyValue : Value → String
  | .str s => s
  | v => serializeValue v

/-- The left-to-right scan of replace_placeholders (render.rs) over the
remaining input: at each at-brace or dollar-brace marker, the region up to
the next closing brace is looked up (trimmed) in the binding context and the
string-coerced result is substituted; a missing path is a hard binding
error; a marker with no closing brace anywhere after it is emitted
literally (no later marker can complete either, since no closing brace
follows it).  Fuel is the length of the scanned list, which the scan
consumes strictly. -/
def scanChars (ctx : BindingContext) : Nat → List Char → Except ComponentError (List Char)
  | 0, l => .ok l
  | _ + 1, [] => .ok []
  | fuel + 1, c :: rest =>
    if (c = '@' ∨ c = '$') ∧ rest.head? = some '{' then
      let after := rest.tail
      let body := after.takeWhile (fun ch => ch ≠ '}')
      if body.length = after.length then .ok (c :: rest)
      else
        match ctx.lookup (String.mk (trimChars body)) with
        | none => .error (.binding ("missing binding path: " ++ String.mk body))
        | some v =>
          let rep := match v with
            | .str s => s.data
            | other => serializeChars other
          match scanChars ctx fuel (after.drop (body.length + 1)) with
          | .ok out => .ok (rep ++ out)
          | .error e => .error e
    else
      match scanChars ctx fuel rest with
      | .ok out => .ok (c :: out)
      | .error e => .error e

/-- replace_placeholders (render.rs). -/
def replacePlaceholders (ctx : BindingContext) (input : String) :
    Except ComponentError String :=
  match scanChars ctx input.data.length input.data with
  | .ok out => .ok (String.mk out)
  | .error e => .error e

/-- External collaborators of the render pipeline, passed as parameters:
the handlebars template engine applied in pass A (external crate, given the
context object and the template string), the expression engine for
non-simple expressions (src/expression.rs is not among the provided
sources), and asset/catalog resolution (filesystem- and
environment-dependent candidate probing). -/
structure RenderExt where
  hb : Value → String → Except String String
  eval : String → BindingContext → Option Value
  resolveExternal : AdaptiveCardInvocation → Except ComponentError Value

/-- The per-string step of apply_bindings (render.rs), in source order: a
whole-string expression region (direct lookup when simple, engine evaluation
otherwise, the result string-coerced unless already a string), else a
whole-string placeholder producing a typed value, else the left-to-right
placeholder scan.  Every failure is a binding error. -/
def processString (ext : RenderExt) (ctx : BindingContext) (s : String) :
    Except ComponentError Value :=
  match extractExpression s with
  | some expr =>
    if isSimpleExpression expr then
      match ctx.lookup expr with
      | some v => .ok v
      | none => .error (.binding ("missing binding path: " ++ expr))
    else
      match ext.eval expr ctx with
      | some (.str t) => .ok (.str t)
      | some other => .ok (.str (stringifyValue other))
      | none => .error (.binding ("invalid expression: " ++ expr))
  | none =>
    match extractSinglePlaceholder s with
    | some p =>
      match ctx.lookup p with
      | some v => .ok v
      | none => .error (.binding ("missing binding path: " ++ p))
    | none =>
      match replacePlaceholders ctx s with
      | .ok out => .ok (.str out)
      | .error e => .error e

mutual
/-- apply_bindings (render.rs): rewrite every string leaf of the card tree
via processString; arrays and objects recurse, other leaves pass through.
The observability counters are omitted (they affect no control flow). -/
def applyBindings (ext : RenderExt) (ctx : BindingContext) : Value → Except ComponentError Value
  | .str s => processString ext ctx s
  | .arr items =>
    match applyBindingsList ext ctx items with
    | .ok out => .ok (.arr out)
    | .error e => .error e
  | .obj entries =>
    match applyBindingsEntries ext ctx entries with
    | .ok out => .ok (.obj out)
    | .error e => .error e
  | v => .ok v

/-- apply_bindings over array items in order. -/
def applyBindingsList (ext : RenderExt) (ctx : BindingContext) :
    List Value → Except ComponentError (List Value)
  | [] => .ok []
  | v :: rest =>
    match applyBindings ext ctx v with
    | .error e => .error e
    | .ok w =>
      match applyBindingsList ext ctx rest with
      | .ok out => .ok (w :: out)
      | .error e => .error e

/-- apply_bindings over object entries in order. -/
def applyBindingsEntries (ext : RenderExt) (ctx : BindingContext) :
    List (String × Value) → Except ComponentError (List (String × Value))
  | [] => .ok []
  | (k, v) :: rest =>
    match applyBindings ext ctx v with
    | .error e => .error e
    | .ok w =>
      match applyBindingsEntries ext ctx rest with
      | .ok out => .ok ((k, w) :: out)
      | .error e => .error e
end

/-- resolve_state_node (render.rs): state.nodes.<node_id> as an object. -/
def resolveStateNode (state : Value) (nodeId : String) : Option (List (String × Value)) :=
  (state.getKey "nodes").bind fun nodes =>
    nodes.asObjEntries.bind fun m =>
      (lookupEntry m nodeId).bind Value.asObjEntries

/-- resolve_state_input (render.rs): state.input as an object. -/
def resolveStateInput (state : Value) : Option (List (String × Value)) :=
  (state.getKey "input").bind Value.asObjEntries

/-- is_reserved_handlebars_key (render.rs). -/
def isReservedHandlebarsKey (key : String) : Bool :=
  key = "payload" ∨ key = "state" ∨ key = "node" ∨ key = "node_id" ∨ key = "node_payload"

/-- Insertion fold of the non-reserved state-input keys into the handlebars
context root. -/
def addStateInputKeys (root : List (String × Value)) :
    List (String × Value) → List (String × Value)
  | [] => root
  | (k, v) :: rest =>
    if isReservedHandlebarsKey k ∨ containsKey root k then addStateInputKeys root rest
    else addStateInputKeys (insertEntry root k v) rest

/-- build_handlebars_context (render.rs): payload and state always; when the
invocation carries a node id, that id, the node state sub-document and its
unwrapped payload; then any state.input keys not already reserved or
present. -/
def buildHandlebarsContext (inv : AdaptiveCardInvocation) : Value :=
  let root := insertEntry (insertEntry [] "payload" inv.payload) "state" inv.state
  let root :=
    match inv.node_id with
    | none => root
    | some nid =>
      let root := insertEntry root "node_id" (.str nid)
      match resolveStateNode inv.state nid with
      | none => root
      | some node =>
        let root :=
          match lookupEntry node "payload" with
          | some payload => insertEntry root "node_payload" payload
          | none => root
        insertEntry root "node" (.obj node)
  match resolveStateInput inv.state with
  | some stateInput => .obj (addStateInputKeys root stateInput)
  | none => .obj root

mutual
/-- apply_handlebars / render_handlebars_value (render.rs): pass A of the
pipeline, rendering every string leaf through the template engine against
the handlebars context; a template error aborts with a binding error. -/
def applyHb (ext : RenderExt) (hctx : Value) : Value → Except ComponentError Value
  | .str s =>
    match ext.hb hctx s with
    | .ok out => .ok (.str out)
    | .error err => .error (.binding ("handlebars: " ++ err))
  | .arr items =>
    match applyHbList ext hctx items with
    | .ok out => .ok (.arr out)
    | .error e => .error e
  | .obj entries =>
    match applyHbEntries ext hctx entries with
    | .ok out => .ok (.obj out)
    | .error e => .error e
  | v => .ok v

/-- Pass A over array items in order. -/
def applyHbList (ext : RenderExt) (hctx : Value) :
    List Value → Except ComponentError (List Value)
  | [] => .ok []
  | v :: rest =>
    match applyHb ext hctx v with
    | .error e => .error e
    | .ok w =>
      match applyHbList ext hctx rest with
      | .ok out => .ok (w :: out)
      | .error e => .error e

/-- Pass A over object entries in order. -/
def applyHbEntries (ext : RenderExt) (hctx : Value) :
    List (String × Value) → Except ComponentError (List (String × Value))
  | [] => .ok []
  | (k, v) :: rest =>
    match applyHb ext hctx v with
    | .error e => .error e
    | .ok w =>
      match applyHbEntries ext hctx rest with
      | .ok out => .ok ((k, w) :: out)
      | .error e => .error e
end

/-- resolve_card (render.rs): an inline source returns the embedded document
(invalid input when absent); asset and catalog sources go through the
filesystem- and environment-dependent candidate probing, abstracted as the
external resolution parameter. -/
def resolveCard (ext : RenderExt) (inv : AdaptiveCardInvocation) : Except ComponentError Value :=
  match inv.card_source with
  | .inline =>
    match inv.card_spec.inline_json with
    | some card => .ok card
    | none => .error (.invalidInput "inline_json is required")
  | .asset => ext.resolveExternal inv
  | .catalog => ext.resolveExternal inv

/-- Sorted-set insertion modelling BTreeSet<String>::insert followed by the
final sorted iteration: keeps the list strictly ascending. -/
def insertSorted (s : String) : List String → List String
  | [] => [s]
  | x :: xs =>
    if s = x then x :: xs
    else if s < x then s :: x :: xs
    else x :: insertSorted s xs

/-- merge_requires (render.rs): first-writer-wins key union into the
aggregate requirement map; a null aggregate adopts the new map, a non-object
aggregate is left alone. -/
def mergeRequires (target newValue : Value) : Value :=
  match target with
  | .obj dst =>
    match newValue with
    | .obj src =>
      .obj (src.foldl (fun acc kv => if containsKey acc kv.1 then acc else acc ++ [kv]) dst)
    | _ => .obj dst
  | .null => newValue
  | other => other

/-- Accumulator of the feature-analysis walk: the two used-name sets and the
flag/requirement summary. -/
structure FeatureAcc where
  used_elements : List String
  used_actions : List String
  summary : CardFeatureSummary

/-- The per-object bookkeeping of the feature walk (render.rs analyze_features
walk): record the type name as action or element with the specific flags,
note authentication, merge the requires map. -/
def featureNode (m : List (String × Value)) (acc : FeatureAcc) : FeatureAcc :=
  let acc :=
    match (lookupEntry m "type").bind Value.asStr with
    | some kind =>
      if leadsWith "Action.".data kind.data then
        let acc := { acc with used_actions := insertSorted kind acc.used_actions }
        let acc :=
          if kind = "Action.ShowCard" then
            { acc with summary := { acc.summary with uses_show_card := true } }
          else acc
        if kind = "Action.ToggleVisibility" then
          { acc with summary := { acc.summary with uses_toggle_visibility := true } }
        else acc
      else
        let acc := { acc with used_elements := insertSorted kind acc.used_elements }
        if kind = "Media" then
          { acc with summary := { acc.summary with uses_media := true } }
        else acc
    | none => acc
  let acc :=
    if containsKey m "authentication" then
      { acc with summary := { acc.summary with uses_auth := true } }
    else acc
  match lookupEntry m "requires" with
  | some req =>
    { acc with summary := { acc.summary with
        requires_features := mergeRequires acc.summary.requires_features req } }
  | none => acc

mutual
/-- The recursive feature walk (render.rs analyze_features): objects are
booked then their member values visited in order, arrays visit their items,
leaves contribute nothing. -/
def featureWalk (acc : FeatureAcc) : Value → FeatureAcc
  | .obj m => featureWalkEntries (featureNode m acc) m
  | .arr items => featureWalkList acc items
  | _ => acc

/-- Feature walk over array items. -/
def featureWalkList (acc : FeatureAcc) : List Value → FeatureAcc
  | [] => acc
  | v :: rest => featureWalkList (featureWalk acc v) rest

/-- Feature walk over object member values. -/
def featureWalkEntries (acc : FeatureAcc) : List (String × Value) → FeatureAcc
  | [] => acc
  | (_, v) :: rest => featureWalkEntries (featureWalk acc v) rest
end

/-- analyze_features (render.rs): one read-only walk producing the usage
summary; the version is read off the root before walking. -/
def analyzeFeatures (card : Value) : CardFeatureSummary :=
  let init : CardFeatureSummary :=
    { version := (card.getKey "version").bind Value.asStr
      used_elements := []
      used_actions := []
      uses_show_card := false
      uses_toggle_visibility := false
      uses_media := false
      uses_auth := false
      requires_features := .null }
  let acc := featureWalk { used_elements := [], used_actions := [], summary := init } card
  { acc.summary with used_elements := acc.used_elements, used_actions := acc.used_actions }

/-- Accumulator of the validation walk: issues in emission order plus the
input-id and action-id duplicate-detection sets. -/
structure VisitAcc where
  issues : List ValidationIssue
  input_ids : List String
  action_ids : List String

/-- push_issue (render.rs). -/
def pushIssue (acc : VisitAcc) (path code message : String) : VisitAcc :=
  { acc with issues := acc.issues ++ [{ code := code, message := message, path := path }] }

/-- HashSet::insert semantics for the duplicate-detection sets: whether the
id was newly inserted, plus the updated set. -/
def insertId (ids : List String) (id : String) : Bool × List String :=
  if ids.contains id then (false, ids) else (true, id :: ids)

/-- validate_action (render.rs): the per-action-type structural rules. -/
def validateAction (m : List (String × Value)) (path : String) (acc : VisitAcc) : VisitAcc :=
  let kind := ((lookupEntry m "type").bind Value.asStr).getD ""
  if kind = "Action.OpenUrl" then
    if (((lookupEntry m "url").bind Value.asStr).map (fun s => !s.isEmpty)).getD false then acc
    else pushIssue acc path "missing-url" "Action.OpenUrl must include a url"
  else if kind = "Action.Execute" then
    let acc :=
      if ((lookupEntry m "verb").bind Value.asStr).isNone then
        pushIssue acc path "missing-verb" "Action.Execute should include a verb"
      else acc
    if ((lookupEntry m "data").map (fun d => !d.isObj && !d.isNull)).getD false then
      pushIssue acc path "invalid-data" "Action.Execute data should be an object when present"
    else acc
  else if kind = "Action.ShowCard" then
    let acc :=
      if containsKey m "card" then acc
      else pushIssue acc path "missing-card" "Action.ShowCard must include a card"
    match lookupEntry m "card" with
    | some cardValue =>
      if cardValue.isObj then acc
      else pushIssue acc path "invalid-card" "Action.ShowCard card must be an object"
    | none => acc
  else if kind = "Action.ToggleVisibility" then
    if containsKey m "targetElements" = false then
      pushIssue acc path "missing-target-elements"
        "Action.ToggleVisibility must include targetElements"
    else if (((lookupEntry m "targetElements").bind Value.asArr).map List.isEmpty).getD false then
      pushIssue acc path "empty-target-elements"
        "Action.ToggleVisibility targetElements must not be empty"
    else acc
  else acc

/-- Whether a choice entry lacks a non-empty title or a non-empty value
(the any-predicate of the Input.ChoiceSet rule). -/
def badChoice (c : Value) : Bool :=
  !(((c.getKey "title").bind Value.asStr).map (fun s => !s.isEmpty)).getD false ||
  !(((c.getKey "value").bind Value.asStr).map (fun s => !s.isEmpty)).getD false

/-- Whether a media source entry lacks a non-empty url. -/
def badSource (s : Value) : Bool :=
  !(((s.getKey "url").bind Value.asStr).map (fun v => !v.isEmpty)).getD false

/-- The per-node rules keyed on the type discriminator (the match inside
visit in render.rs validate_card). -/
def visitKindRules (kind : String) (m : List (String × Value)) (path : String)
    (acc : VisitAcc) : VisitAcc :=
  if kind = "Input.ChoiceSet" then
    match lookupEntry m "choices" with
    | some choices =>
      match choices.asArr with
      | some arr =>
        if arr.isEmpty then
          pushIssue acc path "empty-choices" "Input.ChoiceSet must include at least one choice"
        else if arr.any badChoice then
          pushIssue acc path "invalid-choice" "Choices must include non-empty title and value"
        else acc
      | none => pushIssue acc path "invalid-choices" "Input.ChoiceSet choices must be an array"
    | none => pushIssue acc path "missing-choices" "Input.ChoiceSet must include choices"
  else if kind = "Input.Toggle" then
    if (((lookupEntry m "title").bind Value.asStr).getD "").isEmpty then
      pushIssue acc path "missing-title" "Input.Toggle should include a title"
    else acc
  else if kind = "Input.Number" then
    match (lookupEntry m "min").bind Value.asNum, (lookupEntry m "max").bind Value.asNum with
    | some mn, some mx =>
      if mn > mx then pushIssue acc path "invalid-range" "Input.Number min must be <= max"
      else acc
    | _, _ => acc
  else if kind = "ColumnSet" then
    match lookupEntry m "columns" with
    | some columns =>
      if columns.asArr.isNone then
        pushIssue acc path "invalid-columns" "ColumnSet columns must be an array"
      else if (columns.asArr.map List.isEmpty).getD false then
        pushIssue acc path "empty-columns" "ColumnSet columns must not be empty"
      else acc
    | none => acc
  else if kind = "Media" then
    match lookupEntry m "sources" with
    | some sources =>
      match sources.asArr with
      | none => pushIssue acc path "invalid-sources" "Media sources must be an array"
      | some arr =>
        if arr.isEmpty then
          pushIssue acc path "missing-sources" "Media must include at least one source"
        else if arr.any badSource then
          pushIssue acc path "invalid-source" "Media sources must include non-empty url"
        else acc
    | none => pushIssue acc path "missing-sources" "Media must include sources"
  else acc

mutual
/-- visit (render.rs validate_card): per-object id bookkeeping, action rules
and type-keyed rules, then recursion into members with slash-joined paths;
arrays recurse with index segments. -/
def visitValue (v : Value) (path : String) (acc : VisitAcc) : VisitAcc :=
  match v with
  | .obj m =>
    let kind := ((lookupEntry m "type").bind Value.asStr).getD ""
    let acc :=
      if leadsWith "Input.".data kind.data ∧ containsKey m "id" = false then
        pushIssue acc path "missing-id" "Inputs must include an id"
      else acc
    let acc :=
      if leadsWith "Input.".data kind.data then
        match (lookupEntry m "id").bind Value.asStr with
        | some id =>
          let (inserted, ids) := insertId acc.input_ids id
          let acc := { acc with input_ids := ids }
          if inserted then acc
          else pushIssue acc path "duplicate-id" "Input ids should be unique within the card"
        | none => acc
      else acc
    let acc :=
      if leadsWith "Action.".data kind.data then
        let acc :=
          match (lookupEntry m "id").bind Value.asStr with
          | some id =>
            let (inserted, ids) := insertId acc.action_ids id
            let acc := { acc with action_ids := ids }
            if inserted then acc
            else
              pushIssue acc path "duplicate-action-id"
                "Action ids should be unique within the card"
          | none => acc
        validateAction m path acc
      else acc
    let acc := visitKindRules kind m path acc
    visitEntries m path acc
  | .arr items => visitList items path 0 acc
  | _ => acc

/-- visit over object members in order, extending the path with the key. -/
def visitEntries (entries : List (String × Value)) (path : String) (acc : VisitAcc) : VisitAcc :=
  match entries with
  | [] => acc
  | (k, v) :: rest => visitEntries rest path (visitValue v (path ++ "/" ++ k) acc)

/-- visit over array items in order, extending the path with the index. -/
def visitList (items : List Value) (path : String) (idx : Nat) (acc : VisitAcc) : VisitAcc :=
  match items with
  | [] => acc
  | v :: rest => visitList rest path (idx + 1) (visitValue v (path ++ "/" ++ toString idx) acc)
end

/-- validate_card (render.rs): root checks (object, fixed type literal,
version), the body/actions array checks, then the recursive visit. -/
def validateCard (card : Value) : List ValidationIssue :=
  match card with
  | .obj m =>
    let acc : VisitAcc := { issues := [], input_ids := [], action_ids := [] }
    let acc :=
      if ((lookupEntry m "type").bind Value.asStr) = some "AdaptiveCard" then acc
      else pushIssue acc "/type" "invalid-type" "Root type must be AdaptiveCard"
    let acc :=
      if (lookupEntry m "version").isNone then
        pushIssue acc "/version" "missing-version" "AdaptiveCard must include a version"
      else acc
    let acc :=
      match lookupEntry m "body" with
      | some body =>
        if body.asArr.isNone then pushIssue acc "/body" "invalid-body" "body must be an array"
        else acc
      | none => acc
    let acc :=
      match lookupEntry m "actions" with
      | some actions =>
        if actions.asArr.isNone then
          pushIssue acc "/actions" "invalid-actions" "actions must be an array"
        else acc
      | none => acc
    (visitValue (.obj m) "" acc).issues
  | _ => [{ code := "invalid-root", message := "Card must be a JSON object", path := "/" }]

/-- What render_card (render.rs) returns: the fully substituted card, its
feature summary and its validation issues.  The asset-resolution record and
binding counters feed only the environment-gated telemetry (modelled
disabled) and are omitted. -/
structure RenderOutcome where
  card : Value
  features : CardFeatureSummary
  validation_issues : List ValidationIssue

/-- render_card (render.rs): resolve the source document, run pass A
(structured templating) and pass B (placeholder/expression substitution),
then analyze features and validate. -/
def renderCard (ext : RenderExt) (inv : AdaptiveCardInvocation) :
    Except ComponentError RenderOutcome :=
  match resolveCard ext inv with
  | .error e => .error e
  | .ok card0 =>
    match applyHb ext (buildHandlebarsContext inv) card0 with
    | .error e => .error e
    | .ok card1 =>
      match applyBindings ext (BindingContext.fromInvocation inv) card1 with
      | .error e => .error e
      | .ok card2 =>
        .ok { card := card2
              features := analyzeFeatures card2
              validation_issues := validateCard card2 }

/-- normalize_inputs (interaction.rs): raw interaction inputs are coerced —
an object passes through, null becomes the empty object, a string is parsed
as JSON when possible and otherwise wrapped under the value key, and every
other value is wrapped under the value key. -/
def normalizeInputs (raw : Value) : Value :=
  match raw with
  | .obj m => .obj m
  | .null => .obj []
  | .str s => (jsonParse s).getD (.obj [("value", .str s)])
  | other => .obj [("value", other)]

/-- handle_interaction (interaction.rs): precondition checks on the action
and card-instance ids, state load, render, intent computation per
interaction type, event construction, one in-memory batch application and a
single persist.  Every failure path returns before the persist, leaving the
store untouched. -/
def handleInteraction (ext : RenderExt) (store : Store) (inv : AdaptiveCardInvocation) :
    Store × Except ComponentError AdaptiveCardResult :=
  match inv.interaction with
  | none => (store, .error (.invalidInput "interaction is required"))
  | some interaction =>
    if (trimChars interaction.action_id.data).isEmpty then
      (store, .error (.interactionInvalid "interaction.action_id is required"))
    else if (trimChars interaction.card_instance_id.data).isEmpty then
      (store, .error (.interactionInvalid "interaction.card_instance_id is required"))
    else
      let invocation := (loadStateIfMissing store inv (some interaction)).1
      match renderCard ext invocation with
      | .error e => (store, .error e)
      | .ok resolved =>
        let normalized := normalizeInputs interaction.raw_inputs
        let routeOpt := (interaction.metadata.getKey "route").bind Value.asStr
        let session_updates : List SessionUpdateOp :=
          match routeOpt with
          | some route => [.setRoute route]
          | none => []
        let stepped : List StateUpdateOp × AdaptiveActionType :=
          match interaction.interaction_type with
          | .submit => ([.merge "form_data" normalized], .submit)
          | .execute => ([.merge "form_data" normalized], .execute)
          | .openUrl => ([], .openUrl)
          | .showCard =>
            let subcardId :=
              (((interaction.metadata.getKey "subcardId").bind Value.asStr)).getD
                interaction.action_id
            ([.set ("ui.active_show_card." ++ interaction.card_instance_id) (.str subcardId)],
              .showCard)
          | .toggleVisibility =>
            let visible := (((interaction.metadata.getKey "visible").bind Value.asBool)).getD true
            ([.set ("ui.visibility." ++ interaction.action_id) (.bool visible)],
              .toggleVisibility)
        let event : AdaptiveActionEvent :=
          { action_type := stepped.2
            action_id := interaction.action_id
            verb := interaction.verb
            route := routeOpt
            inputs := normalized
            card_id := (((interaction.metadata.getKey "cardId").bind Value.asStr)).getD
              interaction.card_instance_id
            card_instance_id := interaction.card_instance_id
            subcard_id := (interaction.metadata.getKey "subcardId").bind Value.asStr
            metadata := interaction.metadata }
        let persisted0 := if invocation.state.isNull then .obj [] else invocation.state
        let persisted := applyUpdates persisted0 stepped.1
        let store2 := persistState store invocation (some interaction) persisted
        (store2,
          .ok { rendered_card := some resolved.card
                event := some event
                state_updates := stepped.1
                session_updates := session_updates
                card_features := resolved.features
                validation_issues := resolved.validation_issues
                telemetry_events := [] })

/-- handle_invocation (lib.rs): state load, discard of a disabled
interaction, dispatch to the interaction handler when an interaction
remains, otherwise render, escalate validation issues exactly under Error
mode, and shape the result by render mode. -/
def handleInvocation (ext : RenderExt) (store : Store) (inv : AdaptiveCardInvocation) :
    Store × Except ComponentError AdaptiveCardResult :=
  let inv1 := (loadStateIfMissing store inv none).1
  let inv2 :=
    match inv1.interaction with
    | some i => if i.enabled = some false then { inv1 with interaction := none } else inv1
    | none => inv1
  match inv2.interaction with
  | some _ => handleInteraction ext store inv2
  | none =>
    match renderCard ext inv2 with
    | .error e => (store, .error e)
    | .ok rendered =>
      if inv2.validation_mode = .error ∧ rendered.validation_issues.isEmpty = false then
        (store, .error (.cardValidation rendered.validation_issues))
      else
        let rendered_card :=
          match inv2.mode with
          | .validate => none
          | _ => some rendered.card
        (store,
          .ok { rendered_card := rendered_card
                event := none
                state_updates := []
                session_updates := []
                card_features := rendered.features
                validation_issues := rendered.validation_issues
                telemetry_events := [] })

/-- Absence of the two-character binding markers (at-brace and dollar-brace)
in a character list. -/
def noMarkers (l : List Char) : Bool :=
  !hasSubPair '@' '{' l && !hasSubPair '$' '{' l

/-- Absence of template, placeholder and expression syntax in a string: no
at-brace, no dollar-brace, no doubled opening brace. -/
def noTemplateSyntax (s : String) : Bool :=
  noMarkers s.data && !hasSubPair '{' '{' s.data

mutual
/-- Absence of template, placeholder and expression syntax in every string
leaf of a card tree. -/
def noSyntaxValue : Value → Bool
  | .str s => noTemplateSyntax s
  | .arr items => noSyntaxList items
  | .obj entries => noSyntaxEntries entries
  | _ => true

/-- Leaf-syntax freedom over array items. -/
def noSyntaxList : List Value → Bool
  | [] => true
  | v :: rest => noSyntaxValue v && noSyntaxList rest

/-- Leaf-syntax freedom over object entries. -/
def noSyntaxEntries : List (String × Value) → Bool
  | [] => true
  | (_, v) :: rest => noSyntaxValue v && noSyntaxEntries rest
end

/-- Some string leaf of the tree satisfies the predicate (used to say that a
card references a binding path that does not resolve). -/
inductive HasLeaf (P : String → Prop) : Value → Prop where
  | str {s : String} : P s → HasLeaf P (.str s)
  | arrMem {v : Value} {items : List Value} : v ∈ items → HasLeaf P v → HasLeaf P (.arr items)
  | objMem {k : String} {v : Value} {entries : List (String × Value)} :
      (k, v) ∈ entries → HasLeaf P v → HasLeaf P (.obj entries)

/-- Modelled from the spec: a concrete external-collaborator instance for
closed evaluations.  The template engine is the identity — faithful on every
string without template syntax, the only strings concrete inputs here
contain ("logic-less template expansion" leaves them unchanged); the
expression engine (src/expression.rs, not among the provided sources)
declines every expression — no concrete input here contains a non-simple
expression; external asset resolution fails — no concrete input here uses an
asset or catalog source. -/
def extModel : RenderExt :=
  { hb := fun _ s => .ok s
    eval := fun _ _ => none
    resolveExternal := fun _ => .error (.invalidInput "external resolution not modelled") }

/-- A minimal inline invocation used as the base of concrete inputs: empty
inline card, empty payload/session/state, no interaction, default modes. -/
def baseInv : AdaptiveCardInvocation :=
  { card_source := .inline
    card_spec := { inline_json := some (.obj [])
                   asset_path := none
                   catalog_name := none
                   template_params := none
                   asset_registry := none }
    node_id := none
    payload := .obj []
    session := .obj []
    state := .obj []
    interaction := none
    mode := .renderAndValidate
    validation_mode := .warn }

/-- A Submit interaction with non-empty ids, null raw inputs and empty
metadata, used by concrete inputs. -/
def baseInteraction : CardInteraction :=
  { enabled := none
    interaction_type := .submit
    action_id := "a1"
    verb := none
    raw_inputs := .null
    card_instance_id := "inst-1"
    metadata := .null }

/-- The Submit interaction of the C4 concrete input: raw inputs carry the
single key comment with value x. -/
def c4Interaction : CardInteraction :=
  { baseInteraction with raw_inputs := .obj [("comment", .str "x")] }

/-- The C4 concrete invocation. -/
def c4Inv : AdaptiveCardInvocation :=
  { baseInv with interaction := some c4Interaction }

/-- A disabled interaction (enabled = false), for the C10 concrete input. -/
def c10Interaction : CardInteraction :=
  { baseInteraction with enabled := some false }

/-- The C10 concrete invocation carrying the disabled interaction. -/
def c10Inv : AdaptiveCardInvocation :=
  { baseInv with interaction := some c10Interaction }

/-- Whether the left-to-right scan of replace_placeholders, run over the
given characters, encounters a terminated marker region whose trimmed
binding path does not resolve against the context — the "missing path found
mid-scan" condition of pass B.  Traverses exactly as scanChars does
(substituted text is never rescanned; an unterminated marker stops the
scan), with the same fuel discipline. -/
def scanHasMissingF (ctx : BindingContext) : Nat → List Char → Bool
  | 0, _ => false
  | _ + 1, [] => false
  | fuel + 1, c :: rest =>
    if (c = '@' ∨ c = '$') ∧ rest.head? = some '{' then
      let after := rest.tail
      let body := after.takeWhile (fun ch => ch ≠ '}')
      if body.length = after.length then false
      else
        match ctx.lookup (String.mk (trimChars body)) with
        | none => true
        | some _ => scanHasMissingF ctx fuel (after.drop (body.length + 1))
    else scanHasMissingF ctx fuel rest

/-- Whether a string leaf references a binding path that cannot be resolved
against the binding context, in any of the three resolution forms of pass B:
a whole-string simple expression (direct lookup), a whole-string
placeholder, or a marker found by the mid-string scan. -/
def stringRefsMissing (ctx : BindingContext) (s : String) : Bool :=
  match extractExpression s with
  | some expr => isSimpleExpression expr && (ctx.lookup expr).isNone
  | none =>
    match extractSinglePlaceholder s with
    | some p => (ctx.lookup p).isNone
    | none => scanHasMissingF ctx s.data.length s.data

/-- The C1 concrete card: its only string leaf embeds a placeholder for a
payload path that the empty payload cannot resolve, mid-string. -/
def c1Card : Value :=
  .obj [("body", .str "Hello @\x7bpayload.missing\x7d!")]

/-- The C1 concrete invocation: inline c1Card with a Submit interaction. -/
def c1Inv : AdaptiveCardInvocation :=
  { baseInv with
    card_spec := { baseInv.card_spec with inline_json := some c1Card }
    interaction := some baseInteraction }

/-- The C1 concrete invocation without the interaction (plain render path). -/
def c1PlainInv : AdaptiveCardInvocation :=
  { c1Inv with interaction := none }

theorem Value.sizeOf_lt_of_mem_arr {v : Value} {items : List Value} (h : v ∈ items) :
    sizeOf v < 1 + sizeOf items := by
  have := List.sizeOf_lt_of_mem h
  omega

theorem Value.sizeOf_lt_of_mem_obj {p : String × Value} {entries : List (String × Value)}
    (h : p ∈ entries) : sizeOf p.2 < 1 + sizeOf entries := by
  have h1 := List.sizeOf_lt_of_mem h
  have h2 : sizeOf p.2 < sizeOf p := by
    cases p with
    | mk k v => simp only [Prod.mk.sizeOf_spec]; omega
  omega

theorem Value.myInduction (motive : Value → Prop)
    (hnull : motive .null)
    (hbool : ∀ b, motive (.bool b))
    (hnum : ∀ n, motive (.num n))
    (hstr : ∀ s, motive (.str s))
    (harr : ∀ items, (∀ v ∈ items, motive v) → motive (.arr items))
    (hobj : ∀ entries, (∀ p ∈ entries, motive p.2) → motive (.obj entries)) :
    ∀ v, motive v
  | .null => hnull
  | .bool b => hbool b
  | .num n => hnum n
  | .str s => hstr s
  | .arr items => harr items (fun v hv =>
      have : sizeOf v < 1 + sizeOf items := Value.sizeOf_lt_of_mem_arr hv
      Value.myInduction motive hnull hbool hnum hstr harr hobj v)
  | .obj entries => hobj entries (fun p hp =>
      have : sizeOf p.2 < 1 + sizeOf entries := Value.sizeOf_lt_of_mem_obj hp
      Value.myInduction motive hnull hbool hnum hstr harr hobj p.2)
termination_by v => sizeOf v

theorem splitChar_ne_nil (c : Char) (l : List Char) : splitChar c l ≠ [] := by
  induction l with
  | nil => simp [splitChar]
  | cons x xs ih =>
    simp only [splitChar]
    split
    · simp
    · split
      · simp
      · simp

theorem pathParts_ne_nil (p : String) : pathParts p ≠ [] := by
  simp only [pathParts, ne_eq, List.map_eq_nil_iff]
  exact splitChar_ne_nil _ _

theorem lookupEntry_insertEntry_self (m : List (String × Value)) (k : String) (v : Value) :
    lookupEntry (insertEntry m k v) k = some v := by
  induction m with
  | nil => simp [insertEntry, lookupEntry]
  | cons e rest ih =>
    obtain ⟨k0, v0⟩ := e
    by_cases h : k0 = k
    · simp [insertEntry, h, lookupEntry]
    · simp [insertEntry, h, lookupEntry, ih]

theorem setParts_shape (s v : Value) (parts : List String) (h : parts ≠ []) :
    ∃ m, setParts s parts v = .obj m := by
  match parts with
  | [last] => exact ⟨_, rfl⟩
  | p :: q :: rest => exact ⟨_, rfl⟩

theorem mergeParts_shape (s v : Value) (parts : List String) (h : parts ≠ []) :
    ∃ m, mergeParts s parts v = .obj m := by
  match parts with
  | [last] =>
    simp only [mergeParts]
    split
    · exact ⟨_, rfl⟩
    · exact ⟨_, rfl⟩
  | p :: q :: rest => exact ⟨_, rfl⟩

theorem deleteParts_shape (entries : List (String × Value)) (parts : List String)
    (h : parts ≠ []) : ∃ m, deleteParts (.obj entries) parts = .obj m := by
  match parts with
  | [last] => exact ⟨_, rfl⟩
  | p :: q :: rest =>
    simp only [deleteParts]
    split
    · exact ⟨_, rfl⟩
    · exact ⟨_, rfl⟩

theorem applyUpdates_obj (updates : List StateUpdateOp) :
    ∀ entries, ∃ m, applyUpdates (.obj entries) updates = .obj m := by
  induction updates with
  | nil => exact fun entries => ⟨entries, rfl⟩
  | cons op rest ih =>
    intro entries
    cases op with
    | set path value =>
      obtain ⟨m, hm⟩ := setParts_shape (.obj entries) value (pathParts path) (pathParts_ne_nil _)
      obtain ⟨m2, hm2⟩ := ih m
      exact ⟨m2, by simp only [applyUpdates, setPath]; rw [hm]; exact hm2⟩
    | merge path value =>
      obtain ⟨m, hm⟩ := mergeParts_shape (.obj entries) value (pathParts path) (pathParts_ne_nil _)
      obtain ⟨m2, hm2⟩ := ih m
      exact ⟨m2, by simp only [applyUpdates, mergePath]; rw [hm]; exact hm2⟩
    | delete path =>
      obtain ⟨m, hm⟩ := deleteParts_shape entries (pathParts path) (pathParts_ne_nil _)
      obtain ⟨m2, hm2⟩ := ih m
      exact ⟨m2, by simp only [applyUpdates, deletePath]; rw [hm]; exact hm2⟩

theorem statePathGet_setParts_prefix :
    ∀ (pre suf : List String) (s v : Value), pre ≠ [] → suf ≠ [] →
      ∃ m, statePathGet (setParts s (pre ++ suf) v) pre = some (.obj m) := by
  intro pre
  induction pre with
  | nil => intro suf s v h; exact absurd rfl h
  | cons q pre' ih =>
    intro suf s v _ hsuf
    cases pre' with
    | nil =>
      cases suf with
      | nil => exact absurd rfl hsuf
      | cons s1 srest =>
        obtain ⟨m2, hm2⟩ := setParts_shape ((lookupEntry (ensureEntries s) q).getD (.obj []))
          v (s1 :: srest) (by simp)
        refine ⟨m2, ?_⟩
        simp only [List.cons_append, List.nil_append, setParts, statePathGet,
          lookupEntry_insertEntry_self, hm2]
    | cons q2 pre'' =>
      cases suf with
      | nil => exact absurd rfl hsuf
      | cons s1 srest =>
        obtain ⟨m2, hm2⟩ := ih (s1 :: srest) ((lookupEntry (ensureEntries s) q).getD (.obj []))
          v (by simp) (by simp)
        refine ⟨m2, ?_⟩
        simp only [List.cons_append, setParts, statePathGet, lookupEntry_insertEntry_self]
        simpa using hm2

theorem statePathGet_mergeParts_prefix :
    ∀ (pre suf : List String) (s v : Value), pre ≠ [] → suf ≠ [] →
      ∃ m, statePathGet (mergeParts s (pre ++ suf) v) pre = some (.obj m) := by
  intro pre
  induction pre with
  | nil => intro suf s v h; exact absurd rfl h
  | cons q pre' ih =>
    intro suf s v _ hsuf
    cases pre' with
    | nil =>
      cases suf with
      | nil => exact absurd rfl hsuf
      | cons s1 srest =>
        obtain ⟨m2, hm2⟩ := mergeParts_shape ((lookupEntry (ensureEntries s) q).getD (.obj []))
          v (s1 :: srest) (by simp)
        refine ⟨m2, ?_⟩
        simp only [List.cons_append, List.nil_append, mergeParts, statePathGet,
          lookupEntry_insertEntry_self, hm2]
    | cons q2 pre'' =>
      cases suf with
      | nil => exact absurd rfl hsuf
      | cons s1 srest =>
        obtain ⟨m2, hm2⟩ := ih (s1 :: srest) ((lookupEntry (ensureEntries s) q).getD (.obj []))
          v (by simp) (by simp)
        refine ⟨m2, ?_⟩
        simp only [List.cons_append, mergeParts, statePathGet, lookupEntry_insertEntry_self]
        simpa using hm2

theorem statePathGet_obj_nil (q : String) (rest : List String) :
    statePathGet (.obj []) (q :: rest) = none := by
  simp [statePathGet, lookupEntry]

theorem mergeParts_get_union :
    ∀ (parts : List String) (s : Value) (e u : List (String × Value)), parts ≠ [] →
      statePathGet s parts = some (.obj e) →
      statePathGet (mergeParts s parts (.obj u)) parts =
        some (.obj (u.foldl (fun acc kv => insertEntry acc kv.1 kv.2) e)) := by
  intro parts
  induction parts with
  | nil => intro s e u h; exact absurd rfl h
  | cons q rest ih =>
    intro s e u _ hget
    cases rest with
    | nil =>
      cases s with
      | obj m =>
        simp only [statePathGet] at hget
        cases hlk : lookupEntry m q with
        | none => rw [hlk] at hget; exact absurd hget (by simp)
        | some child =>
          rw [hlk] at hget
          simp only [statePathGet] at hget
          obtain rfl : child = .obj e := by injection hget
          simp only [mergeParts, ensureEntries, hlk, statePathGet,
            lookupEntry_insertEntry_self]
      | null => simp [statePathGet] at hget
      | bool b => simp [statePathGet] at hget
      | num n => simp [statePathGet] at hget
      | str t => simp [statePathGet] at hget
      | arr items => simp [statePathGet] at hget
    | cons r rest' =>
      cases s with
      | obj m =>
        simp only [statePathGet] at hget
        cases hlk : lookupEntry m q with
        | none => rw [hlk] at hget; exact absurd hget (by simp)
        | some child =>
          rw [hlk] at hget
          have := ih child e u (by simp) hget
          simp only [mergeParts, ensureEntries, hlk, Option.getD_some, statePathGet,
            lookupEntry_insertEntry_self]
          exact this
      | null => simp [statePathGet] at hget
      | bool b => simp [statePathGet] at hget
      | num n => simp [statePathGet] at hget
      | str t => simp [statePathGet] at hget
      | arr items => simp [statePathGet] at hget

theorem mergeParts_get_override :
    ∀ (parts : List String) (s v : Value), parts ≠ [] →
      (∀ e, statePathGet s parts ≠ some (.obj e)) →
      statePathGet (mergeParts s parts v) parts = some v := by
  intro parts
  induction parts with
  | nil => intro s v h; exact absurd rfl h
  | cons q rest ih =>
    intro s v _ hno
    cases rest with
    | nil =>
      cases s with
      | obj m =>
        cases hlk : lookupEntry m q with
        | none =>
          simp only [mergeParts, ensureEntries, hlk]
          simp only [statePathGet, lookupEntry_insertEntry_self]
        | some child =>
          have hchild : ∀ e, child ≠ .obj e := by
            intro e he
            exact hno e (by simp [statePathGet, hlk, he])
          cases child with
          | obj ce => exact absurd rfl (hchild ce)
          | null =>
            simp only [mergeParts, ensureEntries, hlk, statePathGet,
              lookupEntry_insertEntry_self]
          | bool b =>
            simp only [mergeParts, ensureEntries, hlk, statePathGet,
              lookupEntry_insertEntry_self]
          | num n =>
            simp only [mergeParts, ensureEntries, hlk, statePathGet,
              lookupEntry_insertEntry_self]
          | str t =>
            simp only [mergeParts, ensureEntries, hlk, statePathGet,
              lookupEntry_insertEntry_self]
          | arr items =>
            simp only [mergeParts, ensureEntries, hlk, statePathGet,
              lookupEntry_insertEntry_self]
      | null =>
        simp [mergeParts, ensureEntries, lookupEntry, statePathGet,
          lookupEntry_insertEntry_self]
      | bool b =>
        simp [mergeParts, ensureEntries, lookupEntry, statePathGet,
          lookupEntry_insertEntry_self]
      | num n =>
        simp [mergeParts, ensureEntries, lookupEntry, statePathGet,
          lookupEntry_insertEntry_self]
      | str t =>
        simp [mergeParts, ensureEntries, lookupEntry, statePathGet,
          lookupEntry_insertEntry_self]
      | arr items =>
        simp [mergeParts, ensureEntries, lookupEntry, statePathGet,
          lookupEntry_insertEntry_self]
    | cons r rest' =>
      cases s with
      | obj m =>
        cases hlk : lookupEntry m q with
        | none =>
          have h0 : ∀ e, statePathGet (.obj []) (r :: rest') ≠ some (Value.obj e) := by
            intro e; rw [statePathGet_obj_nil]; simp
          have := ih (.obj []) v (by simp) h0
          simp only [mergeParts, ensureEntries, hlk, Option.getD_none, statePathGet,
            lookupEntry_insertEntry_self]
          exact this
        | some child =>
          have hchild : ∀ e, statePathGet child (r :: rest') ≠ some (.obj e) := by
            intro e he
            exact hno e (by simp [statePathGet, hlk, he])
          have := ih child v (by simp) hchild
          simp only [mergeParts, ensureEntries, hlk, Option.getD_some, statePathGet,
            lookupEntry_insertEntry_self]
          exact this
      | null =>
        have h0 : ∀ e, statePathGet (.obj []) (r :: rest') ≠ some (Value.obj e) := by
          intro e; rw [statePathGet_obj_nil]; simp
        have := ih (.obj []) v (by simp) h0
        simp only [mergeParts, ensureEntries, lookupEntry, Option.getD_none, statePathGet,
          lookupEntry_insertEntry_self]
        exact this
      | bool b =>
        have h0 : ∀ e, statePathGet (.obj []) (r :: rest') ≠ some (Value.obj e) := by
          intro e; rw [statePathGet_obj_nil]; simp
        have := ih (.obj []) v (by simp) h0
        simp only [mergeParts, ensureEntries, lookupEntry, Option.getD_none, statePathGet,
          lookupEntry_insertEntry_self]
        exact this
      | num n =>
        have h0 : ∀ e, statePathGet (.obj []) (r :: rest') ≠ some (Value.obj e) := by
          intro e; rw [statePathGet_obj_nil]; simp
        have := ih (.obj []) v (by simp) h0
        simp only [mergeParts, ensureEntries, lookupEntry, Option.getD_none, statePathGet,
          lookupEntry_insertEntry_self]
        exact this
      | str t =>
        have h0 : ∀ e, statePathGet (.obj []) (r :: rest') ≠ some (Value.obj e) := by
          intro e; rw [statePathGet_obj_nil]; simp
        have := ih (.obj []) v (by simp) h0
        simp only [mergeParts, ensureEntries, lookupEntry, Option.getD_none, statePathGet,
          lookupEntry_insertEntry_self]
        exact this
      | arr items =>
        have h0 : ∀ e, statePathGet (.obj []) (r :: rest') ≠ some (Value.obj e) := by
          intro e; rw [statePathGet_obj_nil]; simp
        have := ih (.obj []) v (by simp) h0
        simp only [mergeParts, ensureEntries, lookupEntry, Option.getD_none, statePathGet,
          lookupEntry_insertEntry_self]
        exact this

/-- C5: for every state document that is a JSON object and every batch of
Set/Merge/Delete updates, applying the batch leaves the document a JSON
object; and any Set or Merge whose intermediate path segment hits a
non-object value coerces that position to an object (the position holds an
object afterwards, whatever was there before). -/
theorem c5_theorem :
    (∀ (entries : List (String × Value)) (updates : List StateUpdateOp),
      ∃ m, applyUpdates (.obj entries) updates = .obj m) ∧
    (∀ (s v : Value) (pre suf : List String), pre ≠ [] → suf ≠ [] →
      ∃ m, statePathGet (setParts s (pre ++ suf) v) pre = some (.obj m)) ∧
    (∀ (s v : Value) (pre suf : List String), pre ≠ [] → suf ≠ [] →
      ∃ m, statePathGet (mergeParts s (pre ++ suf) v) pre = some (.obj m)) := by
  refine ⟨fun entries updates => applyUpdates_obj updates entries, ?_, ?_⟩
  · exact fun s v pre suf hpre hsuf => statePathGet_setParts_prefix pre suf s v hpre hsuf
  · exact fun s v pre suf hpre hsuf => statePathGet_mergeParts_prefix pre suf s v hpre hsuf

theorem c5_witness :
    (∃ m, applyUpdates (.obj [("k", Value.num 9)])
      [.set "a.b" (.num 7), .delete "k"] = Value.obj m) ∧
    (∃ m, statePathGet (setParts (.obj [("a", Value.num 5)]) (["a"] ++ ["b"]) (.num 7))
      ["a"] = some (Value.obj m)) :=
  ⟨c5_theorem.1 [("k", Value.num 9)] [.set "a.b" (.num 7), .delete "k"],
   c5_theorem.2.1 (.obj [("a", Value.num 5)]) (.num 7) ["a"] ["b"] (by simp) (by simp)⟩

/-- C6 (amended): when both the existing and the new value at the final path
segment are objects, Merge performs a shallow key union in which the new
keys win; consequently Merge(p,{a:1}) then Merge(p,{b:2}) yields exactly
{a:1,b:2} at p whenever p did not already resolve to an object (the
documented starting point), while an existing object at p keeps its other
keys through the union. -/
theorem c6_theorem :
    (∀ (s : Value) (parts : List String) (e u : List (String × Value)), parts ≠ [] →
      statePathGet s parts = some (.obj e) →
      statePathGet (mergeParts s parts (.obj u)) parts =
        some (.obj (u.foldl (fun acc kv => insertEntry acc kv.1 kv.2) e))) ∧
    (∀ (s : Value) (parts : List String), parts ≠ [] →
      (∀ e, statePathGet s parts ≠ some (.obj e)) →
      statePathGet
        (mergeParts (mergeParts s parts (.obj [("a", .num 1)])) parts (.obj [("b", .num 2)]))
        parts = some (.obj [("a", Value.num 1), ("b", Value.num 2)])) := by
  constructor
  · exact fun s parts e u h hget => mergeParts_get_union parts s e u h hget
  · intro s parts hp hno
    have h1 : statePathGet (mergeParts s parts (.obj [("a", .num 1)])) parts =
        some (.obj [("a", Value.num 1)]) := mergeParts_get_override parts s _ hp hno
    have h2 := mergeParts_get_union parts (mergeParts s parts (.obj [("a", .num 1)]))
      [("a", Value.num 1)] [("b", Value.num 2)] hp h1
    exact h2

/-- C6 counterexample: on a document where p already holds the object {c:3},
the two merges yield {c:3,a:1,b:2} at p — the key c survives the union, so
the result is not {a:1,b:2}. -/
theorem c6_counterexample :
    statePathGet
      (mergePath (mergePath (.obj [("p", .obj [("c", .num 3)])]) "p" (.obj [("a", .num 1)]))
        "p" (.obj [("b", .num 2)])) ["p"] =
      some (.obj [("c", Value.num 3), ("a", Value.num 1), ("b", Value.num 2)]) ∧
    (Value.obj [("c", Value.num 3), ("a", Value.num 1), ("b", Value.num 2)]).getKey "c" =
      some (Value.num 3) ∧
    Value.obj [("c", Value.num 3), ("a", Value.num 1), ("b", Value.num 2)] ≠
      Value.obj [("a", Value.num 1), ("b", Value.num 2)] := by
  refine ⟨rfl, rfl, ?_⟩
  simp

theorem c6_witness :
    statePathGet
      (mergeParts (mergeParts (Value.obj []) ["p"] (.obj [("a", .num 1)])) ["p"]
        (.obj [("b", .num 2)])) ["p"] = some (.obj [("a", Value.num 1), ("b", Value.num 2)]) := by
  have h := c6_theorem.2 (Value.obj []) ["p"] (by simp) (by intro e; rw [statePathGet_obj_nil]; simp)
  exact h

theorem strAppendCancel (p a b : String) (h : p ++ a = p ++ b) : a = b := by
  have hd := congrArg String.data h
  rw [String.data_append p a, String.data_append p b] at hd
  have h2 := List.append_cancel_left hd
  cases a with
  | mk la =>
    cases b with
    | mk lb => exact congrArg String.mk (by simpa using h2)

theorem strAppendNe (p q : String) (hlen : p.data.length = q.data.length)
    (hne : p.data ≠ q.data) : ∀ a b : String, p ++ a ≠ q ++ b := by
  intro a b h
  have hd := congrArg String.data h
  rw [String.data_append p a, String.data_append q b] at hd
  exact hne (List.append_inj hd hlen).1

theorem strAppendNeLit (p r : String) (h : r.data.take p.data.length ≠ p.data) :
    ∀ a : String, p ++ a ≠ r := by
  intro a he
  have hd := congrArg String.data he
  rw [String.data_append p a] at hd
  have ht := congrArg (List.take p.data.length) hd
  rw [List.take_left p.data a.data] at ht
  exact h ht.symm

/-- C7 (amended): the persisted-state key is derived with fixed precedence —
adaptive-card:node:<node_id> when the invocation carries a node id, else
adaptive-card:card:<card_instance_id> when an interaction is present, else
the fixed default key adaptive-card:default — and this mapping is injective
across distinct node ids and distinct card instance ids, with the three
forms mutually disjoint, so state stored under one key is never read or
written under another. -/
theorem c7_theorem :
    (∀ (inv : AdaptiveCardInvocation) (io : Option CardInteraction) (nid : String),
      inv.node_id = some nid → stateKey inv io = "adaptive-card:node:" ++ nid) ∧
    (∀ (inv : AdaptiveCardInvocation) (i : CardInteraction), inv.node_id = none →
      stateKey inv (some i) = "adaptive-card:card:" ++ i.card_instance_id) ∧
    (∀ inv : AdaptiveCardInvocation, inv.node_id = none →
      stateKey inv none = "adaptive-card:default") ∧
    (∀ a b : String, "adaptive-card:node:" ++ a = "adaptive-card:node:" ++ b → a = b) ∧
    (∀ a b : String, "adaptive-card:card:" ++ a = "adaptive-card:card:" ++ b → a = b) ∧
    (∀ a b : String, ("adaptive-card:node:" ++ a : String) ≠ "adaptive-card:card:" ++ b) ∧
    (∀ a : String, ("adaptive-card:node:" ++ a : String) ≠ "adaptive-card:default") ∧
    (∀ a : String, ("adaptive-card:card:" ++ a : String) ≠ "adaptive-card:default") := by
  refine ⟨?_, ?_, ?_, ?_, ?_, ?_, ?_, ?_⟩
  · intro inv io nid h; simp [stateKey, h]
  · intro inv i h; simp [stateKey, h]
  · intro inv h; simp [stateKey, h]
  · exact fun a b h => strAppendCancel _ a b h
  · exact fun a b h => strAppendCancel _ a b h
  · exact strAppendNe _ _ (by decide) (by decide)
  · exact strAppendNeLit _ _ (by decide)
  · exact strAppendNeLit _ _ (by decide)

/-- C7 counterexample: the claimed literal key shapes lack the
adaptive-card: namespace that the code prepends — with node id n1 the
derived key is adaptive-card:node:n1, not node:n1. -/
theorem c7_counterexample :
    stateKey { baseInv with node_id := some "n1" } none = "adaptive-card:node:n1" ∧
    stateKey { baseInv with node_id := some "n1" } none ≠ "node:n1" := by
  exact ⟨rfl, by decide⟩

theorem c7_witness :
    stateKey { baseInv with node_id := some "n7" } (some baseInteraction) =
      "adaptive-card:node:" ++ "n7" ∧
    stateKey baseInv (some baseInteraction) = "adaptive-card:card:" ++ "inst-1" ∧
    stateKey baseInv none = "adaptive-card:default" :=
  ⟨c7_theorem.1 _ (some baseInteraction) "n7" rfl,
   c7_theorem.2.1 baseInv baseInteraction rfl,
   c7_theorem.2.2.1 baseInv rfl⟩

/-- C3 (amended): input normalization passes an object through unchanged,
turns null into the empty object, parses a string as JSON when possible and
returns the parsed value as-is (even when that value is not an object),
wraps an unparsable string as {value: string}, and wraps any other value as
{value: value}; the result is therefore an object except when a string input
parses to a non-object JSON value. -/
theorem c3_theorem (raw : Value) :
    (∀ m, raw = .obj m → normalizeInputs raw = .obj m) ∧
    (raw = .null → normalizeInputs raw = .obj []) ∧
    (∀ s, raw = .str s → normalizeInputs raw = (jsonParse s).getD (.obj [("value", .str s)])) ∧
    ((∀ m, raw ≠ .obj m) → raw ≠ .null → (∀ s, raw ≠ .str s) →
      normalizeInputs raw = .obj [("value", raw)]) := by
  refine ⟨?_, ?_, ?_, ?_⟩
  · intro m h; subst h; rfl
  · intro h; subst h; rfl
  · intro s h; subst h; rfl
  · intro hobj hnull hstr
    cases raw with
    | null => exact absurd rfl hnull
    | obj m => exact absurd rfl (hobj m)
    | str s => exact absurd rfl (hstr s)
    | bool b => rfl
    | num n => rfl
    | arr items => rfl

/-- C3 counterexample: the raw-inputs string 5 parses as the JSON number 5,
which normalization returns as-is — the normalized result is not a JSON
object. -/
theorem c3_counterexample :
    normalizeInputs (.str "5") = Value.num 5 ∧ (Value.num 5).isObj = false :=
  ⟨rfl, rfl⟩

theorem c3_witness :
    normalizeInputs (.str "hello") = Value.obj [("value", Value.str "hello")] := by
  have h := (c3_theorem (.str "hello")).2.2.1 "hello" rfl
  exact h.trans rfl

/-- C8: binding lookup with a double-pipe default returns the parsed default
exactly when the path resolves to null or to nothing, returns a non-null
resolution as-is, and without a default returns an explicit null result
as-is rather than failing; in particular session.user.name with default
Guest yields Guest on an empty session and Ada when the session holds
user.name Ada. -/
theorem c8_theorem :
    (∀ (ctx : BindingContext) (raw path : String) (d : Value),
      parseBindingPath raw = (path, some d) →
      (ctx.lookupFound path = none ∨ ctx.lookupFound path = some .null) →
      ctx.lookup raw = some d) ∧
    (∀ (ctx : BindingContext) (raw path : String) (dflt : Option Value) (v : Value),
      parseBindingPath raw = (path, dflt) → ctx.lookupFound path = some v →
      v.isNull = false → ctx.lookup raw = some v) ∧
    (∀ (ctx : BindingContext) (raw path : String),
      parseBindingPath raw = (path, none) → ctx.lookupFound path = some .null →
      ctx.lookup raw = some .null) ∧
    (BindingContext.lookup ⟨.null, .obj [], .null, .obj []⟩ "session.user.name||\"Guest\"" =
      some (.str "Guest")) ∧
    (BindingContext.lookup
      ⟨.null, .obj [("user", .obj [("name", .str "Ada")])], .null, .obj []⟩
      "session.user.name||\"Guest\"" = some (.str "Ada")) := by
  refine ⟨?_, ?_, ?_, rfl, rfl⟩
  · intro ctx raw path d hparse hfound
    rcases hfound with h | h <;> simp [BindingContext.lookup, hparse, h, Value.isNull]
  · intro ctx raw path dflt v hparse hfound hnn
    simp [BindingContext.lookup, hparse, hfound, hnn]
  · intro ctx raw path hparse hfound
    simp [BindingContext.lookup, hparse, hfound, Value.isNull]

theorem c8_witness :
    BindingContext.lookup ⟨.null, .obj [], .null, .obj []⟩ "session.user.name||\"Guest\"" =
      some (.str "Guest") :=
  c8_theorem.1 ⟨.null, .obj [], .null, .obj []⟩ "session.user.name||\"Guest\""
    "session.user.name" (.str "Guest") rfl (Or.inl rfl)

theorem hasSubPair_cons_false {a b x : Char} {l : List Char}
    (h : hasSubPair a b (x :: l) = false) : hasSubPair a b l = false := by
  cases l with
  | nil => rfl
  | cons y r =>
    simp only [hasSubPair, Bool.or_eq_false_iff] at h
    exact h.2

theorem scanChars_id (ctx : BindingContext) :
    ∀ (fuel : Nat) (l : List Char), hasSubPair '@' '{' l = false →
      hasSubPair '$' '{' l = false → scanChars ctx fuel l = .ok l := by
  intro fuel
  induction fuel with
  | zero => intro l _ _; rfl
  | succ f ih =>
    intro l hat hdol
    cases l with
    | nil => rfl
    | cons c rest =>
      have hcond : ¬ ((c = '@' ∨ c = '$') ∧ rest.head? = some '{') := by
        rintro ⟨hcd, hhd⟩
        cases rest with
        | nil => simp at hhd
        | cons y r =>
          have hy : y = '{' := by simpa using hhd
          rcases hcd with h1 | h1
          · subst h1; subst hy; simp [hasSubPair] at hat
          · subst h1; subst hy; simp [hasSubPair] at hdol
      have hrec := ih rest (hasSubPair_cons_false hat) (hasSubPair_cons_false hdol)
      simp only [scanChars, hcond, if_false]
      rw [hrec]

theorem hasSubPair_append_left {a b : Char} (s : List Char) {t : List Char}
    (h : hasSubPair a b t = true) : hasSubPair a b (s ++ t) = true := by
  induction s with
  | nil => simpa using h
  | cons x s' ih =>
    cases hl : s' ++ t with
    | nil =>
      have ht : t = [] := by
        have := List.append_eq_nil.mp hl
        exact this.2
      rw [ht] at h
      simp [hasSubPair] at h
    | cons y r =>
      rw [List.cons_append, hl]
      rw [hl] at ih
      simp only [hasSubPair, ih, Bool.or_true]

theorem hasSubPair_append_right {a b : Char} {s : List Char} (t : List Char)
    (h : hasSubPair a b s = true) : hasSubPair a b (s ++ t) = true := by
  induction s with
  | nil => simp [hasSubPair] at h
  | cons x s' ih =>
    cases s' with
    | nil => simp [hasSubPair] at h
    | cons y r =>
      simp only [hasSubPair, Bool.or_eq_true] at h
      rcases h with h1 | h1
      · simp only [List.cons_append, List.cons_append, hasSubPair, h1, Bool.true_or]
      · have := ih h1
        simp only [List.cons_append] at this ⊢
        simp only [hasSubPair, this, Bool.or_true]

theorem trimChars_decomp (l : List Char) : ∃ u w, l = u ++ (trimChars l ++ w) := by
  refine ⟨l.takeWhile Char.isWhitespace,
    ((l.dropWhile Char.isWhitespace).reverse.takeWhile Char.isWhitespace).reverse, ?_⟩
  have key : trimChars l ++
      ((l.dropWhile Char.isWhitespace).reverse.takeWhile Char.isWhitespace).reverse =
      l.dropWhile Char.isWhitespace := by
    unfold trimChars
    rw [← List.reverse_append, List.takeWhile_append_dropWhile, List.reverse_reverse]
  rw [key, List.takeWhile_append_dropWhile]

theorem hasSubPair_trim {a b : Char} {l : List Char}
    (h : hasSubPair a b (trimChars l) = true) : hasSubPair a b l = true := by
  obtain ⟨u, w, hl⟩ := trimChars_decomp l
  rw [hl]
  exact hasSubPair_append_left u (hasSubPair_append_right w h)

theorem leadsWith_pair {a b : Char} {m : List Char}
    (h : leadsWith [a, b] m = true) : hasSubPair a b m = true := by
  cases m with
  | nil => simp [leadsWith] at h
  | cons x r =>
    cases r with
    | nil => simp [leadsWith] at h
    | cons y r2 =>
      simp only [leadsWith, Bool.and_eq_true, decide_eq_true_eq] at h
      obtain ⟨hx, hy, _⟩ := h
      simp [hasSubPair, hx.symm, hy.symm]

theorem extractExpression_none {s : String}
    (h : hasSubPair '$' '{' s.data = false) : extractExpression s = none := by
  unfold extractExpression
  rw [if_neg]
  rintro ⟨hl, _⟩
  have := hasSubPair_trim (leadsWith_pair hl)
  rw [h] at this
  exact Bool.false_ne_true this

theorem extractSinglePlaceholder_none {s : String}
    (h : hasSubPair '@' '{' s.data = false) : extractSinglePlaceholder s = none := by
  unfold extractSinglePlaceholder
  rw [if_neg]
  rintro ⟨hl, _⟩
  have := hasSubPair_trim (leadsWith_pair hl)
  rw [h] at this
  exact Bool.false_ne_true this

theorem stringEta (s : String) : String.mk s.data = s := rfl

theorem processString_id (ext : RenderExt) (ctx : BindingContext) (s : String)
    (h : noMarkers s.data = true) : processString ext ctx s = .ok (.str s) := by
  have hcomp : hasSubPair '@' '{' s.data = false ∧ hasSubPair '$' '{' s.data = false := by
    simpa [noMarkers, Bool.and_eq_true] using h
  unfold processString
  rw [extractExpression_none hcomp.2, extractSinglePlaceholder_none hcomp.1]
  unfold replacePlaceholders
  rw [scanChars_id ctx s.data.length s.data hcomp.1 hcomp.2]

theorem applyBindings_id (ext : RenderExt) (ctx : BindingContext) :
    ∀ v : Value, noSyntaxValue v = true → applyBindings ext ctx v = .ok v := by
  intro v
  induction v using Value.myInduction with
  | hnull => intro; rfl
  | hbool b => intro; rfl
  | hnum n => intro; rfl
  | hstr s =>
    intro h
    have hm : noMarkers s.data = true := by
      simp only [noSyntaxValue, noTemplateSyntax, Bool.and_eq_true] at h
      exact h.1
    exact processString_id ext ctx s hm
  | harr items ih =>
    intro h
    simp only [noSyntaxValue] at h
    have hlist : applyBindingsList ext ctx items = .ok items := by
      induction items with
      | nil => rfl
      | cons x xs ihl =>
        simp only [noSyntaxList, Bool.and_eq_true] at h
        have hx := ih x (by simp) h.1
        have hxs := ihl (fun v hv => ih v (by simp [hv])) h.2
        simp only [applyBindingsList, hx, hxs]
    simp only [applyBindings, hlist]
  | hobj entries ih =>
    intro h
    simp only [noSyntaxValue] at h
    have hlist : applyBindingsEntries ext ctx entries = .ok entries := by
      induction entries with
      | nil => rfl
      | cons x xs ihl =>
        obtain ⟨k, v⟩ := x
        simp only [noSyntaxEntries, Bool.and_eq_true] at h
        have hx := ih (k, v) (by simp) h.1
        have hxs := ihl (fun p hp => ih p (by simp [hp])) h.2
        simp only [applyBindingsEntries, hx, hxs]
    simp only [applyBindings, hlist]

theorem applyHb_id (ext : RenderExt) (hctx : Value)
    (hhb : ∀ s : String, hasSubPair '{' '{' s.data = false → ext.hb hctx s = .ok s) :
    ∀ v : Value, noSyntaxValue v = true → applyHb ext hctx v = .ok v := by
  intro v
  induction v using Value.myInduction with
  | hnull => intro; rfl
  | hbool b => intro; rfl
  | hnum n => intro; rfl
  | hstr s =>
    intro h
    have hm : hasSubPair '{' '{' s.data = false := by
      simp only [noSyntaxValue, noTemplateSyntax, Bool.and_eq_true] at h
      simpa using h.2
    simp only [applyHb, hhb s hm]
  | harr items ih =>
    intro h
    simp only [noSyntaxValue] at h
    have hlist : applyHbList ext hctx items = .ok items := by
      induction items with
      | nil => rfl
      | cons x xs ihl =>
        simp only [noSyntaxList, Bool.and_eq_true] at h
        have hx := ih x (by simp) h.1
        have hxs := ihl (fun v hv => ih v (by simp [hv])) h.2
        simp only [applyHbList, hx, hxs]
    simp only [applyHb, hlist]
  | hobj entries ih =>
    intro h
    simp only [noSyntaxValue] at h
    have hlist : applyHbEntries ext hctx entries = .ok entries := by
      induction entries with
      | nil => rfl
      | cons x xs ihl =>
        obtain ⟨k, v⟩ := x
        simp only [noSyntaxEntries, Bool.and_eq_true] at h
        have hx := ih (k, v) (by simp) h.1
        have hxs := ihl (fun p hp => ih p (by simp [hp])) h.2
        simp only [applyHbEntries, hx, hxs]
    simp only [applyHb, hlist]

/-- C9: an inline invocation whose embedded card contains no template,
placeholder or expression syntax in any string leaf renders successfully,
and the rendered card is exactly the embedded document (the template engine
of pass A, being logic-less, leaves syntax-free strings unchanged). -/
theorem c9_theorem (ext : RenderExt) (inv : AdaptiveCardInvocation) (card : Value)
    (hsrc : inv.card_source = .inline)
    (hcard : inv.card_spec.inline_json = some card)
    (hsyn : noSyntaxValue card = true)
    (hhb : ∀ s : String, hasSubPair '{' '{' s.data = false →
      ext.hb (buildHandlebarsContext inv) s = .ok s) :
    renderCard ext inv = .ok
      { card := card, features := analyzeFeatures card, validation_issues := validateCard card } := by
  have h1 : resolveCard ext inv = .ok card := by simp [resolveCard, hsrc, hcard]
  have h2 := applyHb_id ext (buildHandlebarsContext inv) hhb card hsyn
  have h3 := applyBindings_id ext (BindingContext.fromInvocation inv) card hsyn
  simp only [renderCard, h1, h2, h3]

theorem c9_witness :
    renderCard extModel
      { baseInv with card_spec := { baseInv.card_spec with inline_json := some (.obj
          [("type", .str "AdaptiveCard"), ("version", .str "1.5"),
           ("body", .arr [.obj [("type", .str "TextBlock"), ("text", .str "Hello")]])]) } } =
      .ok { card := .obj
              [("type", .str "AdaptiveCard"), ("version", .str "1.5"),
               ("body", .arr [.obj [("type", .str "TextBlock"), ("text", .str "Hello")]])]
            features := analyzeFeatures (.obj
              [("type", .str "AdaptiveCard"), ("version", .str "1.5"),
               ("body", .arr [.obj [("type", .str "TextBlock"), ("text", .str "Hello")]])])
            validation_issues := validateCard (.obj
              [("type", .str "AdaptiveCard"), ("version", .str "1.5"),
               ("body", .arr [.obj [("type", .str "TextBlock"), ("text", .str "Hello")]])]) } :=
  c9_theorem extModel _ _ rfl rfl (by decide) (fun s _ => rfl)

theorem scanChars_error_binding (ctx : BindingContext) :
    ∀ (fuel : Nat) (l : List Char) (e : ComponentError),
      scanChars ctx fuel l = .error e → ∃ msg, e = .binding msg := by
  intro fuel
  induction fuel with
  | zero => intro l e h; simp [scanChars] at h
  | succ f ih =>
    intro l e h
    cases l with
    | nil => simp [scanChars] at h
    | cons c rest =>
      by_cases hcond : (c = '@' ∨ c = '$') ∧ rest.head? = some '{'
      · rw [scanChars, if_pos hcond] at h
        by_cases hterm : (rest.tail.takeWhile (fun ch => ch ≠ '}')).length = rest.tail.length
        · rw [if_pos hterm] at h
          simp at h
        · rw [if_neg hterm] at h
          cases hlk : ctx.lookup (String.mk (trimChars (rest.tail.takeWhile
              (fun ch => ch ≠ '}')))) with
          | none =>
            simp only [hlk] at h
            exact ⟨_, (by injection h with h2; exact h2.symm : e = _)⟩
          | some v =>
            simp only [hlk] at h
            split at h
            · simp at h
            · rename_i e2 heq
              have he : e2 = e := by injection h
              exact ih _ e (he ▸ heq)
      · rw [scanChars, if_neg hcond] at h
        split at h
        · simp at h
        · rename_i e2 heq
          have he : e2 = e := by injection h
          exact ih _ e (he ▸ heq)

theorem replacePlaceholders_error_binding (ctx : BindingContext) (s : String)
    (e : ComponentError) (h : replacePlaceholders ctx s = .error e) : ∃ msg, e = .binding msg := by
  unfold replacePlaceholders at h
  split at h
  · simp at h
  · rename_i e2 heq
    have he : e2 = e := by injection h
    exact scanChars_error_binding ctx _ _ e (he ▸ heq)

theorem processString_error_binding (ext : RenderExt) (ctx : BindingContext) (s : String)
    (e : ComponentError) (h : processString ext ctx s = .error e) : ∃ msg, e = .binding msg := by
  unfold processString at h
  cases hex : extractExpression s with
  | some expr =>
    simp only [hex] at h
    by_cases hsimp : isSimpleExpression expr = true
    · simp only [if_pos hsimp] at h
      cases hlk : ctx.lookup expr with
      | none =>
        simp only [hlk] at h
        exact ⟨_, (by injection h with h2; exact h2.symm : e = _)⟩
      | some v => simp [hlk] at h
    · simp only [if_neg hsimp] at h
      cases hev : ext.eval expr ctx with
      | none =>
        simp only [hev] at h
        exact ⟨_, (by injection h with h2; exact h2.symm : e = _)⟩
      | some v => cases v <;> simp [hev] at h
  | none =>
    simp only [hex] at h
    cases hpl : extractSinglePlaceholder s with
    | some p =>
      simp only [hpl] at h
      cases hlk : ctx.lookup p with
      | none =>
        simp only [hlk] at h
        exact ⟨_, (by injection h with h2; exact h2.symm : e = _)⟩
      | some v => simp [hlk] at h
    | none =>
      simp only [hpl] at h
      split at h
      · simp at h
      · rename_i e2 heq
        have he : e2 = e := by injection h
        exact replacePlaceholders_error_binding ctx s e (he ▸ heq)

theorem applyBindingsList_error (ext : RenderExt) (ctx : BindingContext) :
    ∀ (l : List Value) (e : ComponentError), applyBindingsList ext ctx l = .error e →
      ∃ v ∈ l, applyBindings ext ctx v = .error e := by
  intro l
  induction l with
  | nil => intro e h; simp [applyBindingsList] at h
  | cons x xs ih =>
    intro e h
    rw [applyBindingsList] at h
    cases hx : applyBindings ext ctx x with
    | error e2 =>
      simp only [hx] at h
      have he : e2 = e := by injection h
      exact ⟨x, by simp, he ▸ hx⟩
    | ok w =>
      simp only [hx] at h
      cases hxs : applyBindingsList ext ctx xs with
      | ok out => simp [hxs] at h
      | error e2 =>
        simp only [hxs] at h
        have he : e2 = e := by injection h
        obtain ⟨v, hv, herr⟩ := ih e (he ▸ hxs)
        exact ⟨v, by simp [hv], herr⟩

theorem applyBindingsEntries_error (ext : RenderExt) (ctx : BindingContext) :
    ∀ (l : List (String × Value)) (e : ComponentError), applyBindingsEntries ext ctx l = .error e →
      ∃ p ∈ l, applyBindings ext ctx p.2 = .error e := by
  intro l
  induction l with
  | nil => intro e h; simp [applyBindingsEntries] at h
  | cons x xs ih =>
    intro e h
    obtain ⟨k, v⟩ := x
    rw [applyBindingsEntries] at h
    cases hx : applyBindings ext ctx v with
    | error e2 =>
      simp only [hx] at h
      have he : e2 = e := by injection h
      exact ⟨(k, v), by simp, he ▸ hx⟩
    | ok w =>
      simp only [hx] at h
      cases hxs : applyBindingsEntries ext ctx xs with
      | ok out => simp [hxs] at h
      | error e2 =>
        simp only [hxs] at h
        have he : e2 = e := by injection h
        obtain ⟨p, hp, herr⟩ := ih e (he ▸ hxs)
        exact ⟨p, by simp [hp], herr⟩

theorem applyBindings_error_binding (ext : RenderExt) (ctx : BindingContext) :
    ∀ (v : Value) (e : ComponentError), applyBindings ext ctx v = .error e →
      ∃ msg, e = .binding msg := by
  intro v
  induction v using Value.myInduction with
  | hnull => intro e h; simp [applyBindings] at h
  | hbool b => intro e h; simp [applyBindings] at h
  | hnum n => intro e h; simp [applyBindings] at h
  | hstr s => intro e h; exact processString_error_binding ext ctx s e h
  | harr items ih =>
    intro e h
    rw [applyBindings] at h
    cases hl : applyBindingsList ext ctx items with
    | ok out => simp [hl] at h
    | error e2 =>
      simp only [hl] at h
      have he : e2 = e := by injection h
      obtain ⟨v, hv, herr⟩ := applyBindingsList_error ext ctx items e (he ▸ hl)
      exact ih v hv e herr
  | hobj entries ih =>
    intro e h
    rw [applyBindings] at h
    cases hl : applyBindingsEntries ext ctx entries with
    | ok out => simp [hl] at h
    | error e2 =>
      simp only [hl] at h
      have he : e2 = e := by injection h
      obtain ⟨p, hp, herr⟩ := applyBindingsEntries_error ext ctx entries e (he ▸ hl)
      exact ih p hp e herr

theorem applyBindingsList_ok_mem (ext : RenderExt) (ctx : BindingContext) :
    ∀ (l : List Value) (out : List Value), applyBindingsList ext ctx l = .ok out →
      ∀ v ∈ l, ∃ w, applyBindings ext ctx v = .ok w := by
  intro l
  induction l with
  | nil => intro out _ v hv; cases hv
  | cons x xs ih =>
    intro out h v hv
    rw [applyBindingsList] at h
    cases hx : applyBindings ext ctx x with
    | error e2 => simp [hx] at h
    | ok w =>
      simp only [hx] at h
      cases hxs : applyBindingsList ext ctx xs with
      | error e2 => simp [hxs] at h
      | ok out2 =>
        cases hv with
        | head => exact ⟨w, hx⟩
        | tail _ h2 => exact ih out2 hxs v h2

theorem applyBindingsEntries_ok_mem (ext : RenderExt) (ctx : BindingContext) :
    ∀ (l : List (String × Value)) (out : List (String × Value)),
      applyBindingsEntries ext ctx l = .ok out →
      ∀ p ∈ l, ∃ w, applyBindings ext ctx p.2 = .ok w := by
  intro l
  induction l with
  | nil => intro out _ p hp; cases hp
  | cons x xs ih =>
    intro out h p hp
    obtain ⟨k, v⟩ := x
    rw [applyBindingsEntries] at h
    cases hx : applyBindings ext ctx v with
    | error e2 => simp [hx] at h
    | ok w =>
      simp only [hx] at h
      cases hxs : applyBindingsEntries ext ctx xs with
      | error e2 => simp [hxs] at h
      | ok out2 =>
        cases hp with
        | head => exact ⟨w, hx⟩
        | tail _ h2 => exact ih out2 hxs p h2

theorem hasLeaf_error (ext : RenderExt) (ctx : BindingContext) (P : String → Prop)
    (hP : ∀ s, P s → ∃ e, processString ext ctx s = .error e) :
    ∀ {v : Value}, HasLeaf P v → ∃ e, applyBindings ext ctx v = .error e := by
  intro v hleaf
  induction hleaf with
  | @str s hs => exact hP _ hs
  | @arrMem w items hv hl ih =>
    obtain ⟨e, herr⟩ := ih
    cases hlst : applyBindingsList ext ctx items with
    | ok out =>
      obtain ⟨w2, hw2⟩ := applyBindingsList_ok_mem ext ctx items out hlst _ hv
      rw [herr] at hw2
      simp at hw2
    | error e2 => exact ⟨e2, by rw [applyBindings, hlst]⟩
  | @objMem k w entries hv hl ih =>
    obtain ⟨e, herr⟩ := ih
    cases hlst : applyBindingsEntries ext ctx entries with
    | ok out =>
      obtain ⟨w2, hw2⟩ := applyBindingsEntries_ok_mem ext ctx entries out hlst _ hv
      simp only at hw2
      rw [herr] at hw2
      simp at hw2
    | error e2 => exact ⟨e2, by rw [applyBindings, hlst]⟩

theorem extractSinglePlaceholder_expr_none {s : String} {p : String}
    (h : extractSinglePlaceholder s = some p) : extractExpression s = none := by
  unfold extractSinglePlaceholder at h
  unfold extractExpression
  cases htr : trimChars s.data with
  | nil => rw [htr] at h; simp [leadsWith] at h
  | cons c rest =>
    rw [htr] at h
    by_cases hc : leadsWith ['@', '{'] (c :: rest) = true ∧ (c :: rest).getLast? = some '}'
    · have hcat : c = '@' := by
        have := hc.1
        simp only [leadsWith, Bool.and_eq_true, decide_eq_true_eq] at this
        exact this.1.symm
      rw [if_neg]
      rintro ⟨hl, _⟩
      simp only [leadsWith, Bool.and_eq_true, decide_eq_true_eq] at hl
      rw [hcat] at hl
      exact absurd hl.1 (by decide)
    · rw [if_neg hc] at h
      simp at h

theorem placeholder_missing (ext : RenderExt) (ctx : BindingContext) {s p : String}
    (hpl : extractSinglePlaceholder s = some p) (hlk : ctx.lookup p = none) :
    ∃ e, processString ext ctx s = .error e := by
  refine ⟨.binding ("missing binding path: " ++ p), ?_⟩
  unfold processString
  simp only [extractSinglePlaceholder_expr_none hpl, hpl, hlk]

theorem loadState_shape (store : Store) (inv : AdaptiveCardInvocation)
    (io : Option CardInteraction) :
    ∃ st, (loadStateIfMissing store inv io).1 = { inv with state := st } := by
  unfold loadStateIfMissing
  split
  · exact ⟨inv.state, by cases inv; rfl⟩
  · split
    · exact ⟨_, rfl⟩
    · exact ⟨inv.state, by cases inv; rfl⟩

theorem scanChars_missing_error (ctx : BindingContext) :
    ∀ (fuel : Nat) (l : List Char), scanHasMissingF ctx fuel l = true →
      ∃ msg, scanChars ctx fuel l = .error (.binding msg) := by
  intro fuel
  induction fuel with
  | zero => intro l h; simp [scanHasMissingF] at h
  | succ f ih =>
    intro l h
    cases l with
    | nil => simp [scanHasMissingF] at h
    | cons c rest =>
      by_cases hcond : (c = '@' ∨ c = '$') ∧ rest.head? = some '{'
      · rw [scanHasMissingF, if_pos hcond] at h
        rw [scanChars, if_pos hcond]
        by_cases hterm : ((rest.tail).takeWhile (fun ch => ch ≠ '}')).length = rest.tail.length
        · rw [if_pos hterm] at h
          simp at h
        · rw [if_neg hterm] at h
          rw [if_neg hterm]
          cases hlk : ctx.lookup (String.mk (trimChars
              ((rest.tail).takeWhile (fun ch => ch ≠ '}')))) with
          | none =>
            simp only [hlk]
            exact ⟨_, rfl⟩
          | some v =>
            simp only [hlk] at h
            simp only [hlk]
            obtain ⟨msg, hmsg⟩ := ih _ h
            rw [hmsg]
            exact ⟨msg, rfl⟩
      · rw [scanHasMissingF, if_neg hcond] at h
        rw [scanChars, if_neg hcond]
        obtain ⟨msg, hmsg⟩ := ih _ h
        rw [hmsg]
        exact ⟨msg, rfl⟩

theorem stringRefsMissing_error (ext : RenderExt) (ctx : BindingContext) (s : String)
    (h : stringRefsMissing ctx s = true) : ∃ e, processString ext ctx s = .error e := by
  unfold stringRefsMissing at h
  cases hex : extractExpression s with
  | some expr =>
    simp only [hex, Bool.and_eq_true, Option.isNone_iff_eq_none] at h
    refine ⟨.binding ("missing binding path: " ++ expr), ?_⟩
    unfold processString
    simp only [hex, if_pos h.1, h.2]
  | none =>
    simp only [hex] at h
    cases hpl : extractSinglePlaceholder s with
    | some p =>
      simp only [hpl, Option.isNone_iff_eq_none] at h
      refine ⟨.binding ("missing binding path: " ++ p), ?_⟩
      unfold processString
      simp only [hex, hpl, h]
    | none =>
      simp only [hpl] at h
      obtain ⟨msg, hsc⟩ := scanChars_missing_error ctx s.data.length s.data h
      refine ⟨.binding msg, ?_⟩
      unfold processString replacePlaceholders
      simp only [hex, hpl, hsc]

theorem handleInteraction_error_store (ext : RenderExt) (store : Store)
    (inv : AdaptiveCardInvocation) (st : Store) (e : ComponentError)
    (h : handleInteraction ext store inv = (st, .error e)) : st = store := by
  simp only [handleInteraction] at h
  split at h
  · rw [Prod.mk.injEq] at h
    exact h.1.symm
  · split at h
    · rw [Prod.mk.injEq] at h
      exact h.1.symm
    · split at h
      · rw [Prod.mk.injEq] at h
        exact h.1.symm
      · split at h
        · rw [Prod.mk.injEq] at h
          exact h.1.symm
        · simp at h

theorem handleInvocation_error_store (ext : RenderExt) (store : Store)
    (inv : AdaptiveCardInvocation) (st : Store) (e : ComponentError)
    (h : handleInvocation ext store inv = (st, .error e)) : st = store := by
  simp only [handleInvocation] at h
  split at h
  · exact handleInteraction_error_store _ _ _ _ _ h
  · split at h
    · rw [Prod.mk.injEq] at h
      exact h.1.symm
    · split at h
      · rw [Prod.mk.injEq] at h
        exact h.1.symm
      · simp at h

/-- C1: a string leaf that references a binding path the binding context
cannot resolve — whether as a whole-string simple expression, a whole-string
placeholder, or a marker met by the mid-string scan — makes rendering fail
with a binding error, never a silent empty-string substitution; a failing
render propagates out of the interaction handler with the store exactly as
it was; and every failing interaction or invocation leaves the store
unchanged: the single state write happens only after a fully successful
pass. -/
theorem c1_theorem :
    (∀ (ext : RenderExt) (inv : AdaptiveCardInvocation) (card : Value),
      inv.card_source = .inline →
      inv.card_spec.inline_json = some card →
      applyHb ext (buildHandlebarsContext inv) card = .ok card →
      HasLeaf (fun s => stringRefsMissing (BindingContext.fromInvocation inv) s = true) card →
      ∃ msg, renderCard ext inv = .error (.binding msg)) ∧
    (∀ (ext : RenderExt) (store : Store) (inv : AdaptiveCardInvocation) (i : CardInteraction)
      (e : ComponentError),
      inv.interaction = some i →
      trimChars i.action_id.data ≠ [] →
      trimChars i.card_instance_id.data ≠ [] →
      renderCard ext (loadStateIfMissing store inv (some i)).1 = .error e →
      handleInteraction ext store inv = (store, .error e)) ∧
    (∀ (ext : RenderExt) (store : Store) (inv : AdaptiveCardInvocation) (e : ComponentError),
      inv.interaction = none →
      renderCard ext (loadStateIfMissing store inv none).1 = .error e →
      handleInvocation ext store inv = (store, .error e)) ∧
    (∀ (ext : RenderExt) (store : Store) (inv : AdaptiveCardInvocation) (st : Store)
      (e : ComponentError),
      handleInteraction ext store inv = (st, .error e) → st = store) ∧
    (∀ (ext : RenderExt) (store : Store) (inv : AdaptiveCardInvocation) (st : Store)
      (e : ComponentError),
      handleInvocation ext store inv = (st, .error e) → st = store) := by
  refine ⟨?_, ?_, ?_, ?_, ?_⟩
  · intro ext inv card hsrc hcard hhb hfail
    obtain ⟨e, herr⟩ := hasLeaf_error ext (BindingContext.fromInvocation inv) _
      (fun s hs => stringRefsMissing_error ext _ s hs) hfail
    obtain ⟨msg, rfl⟩ := applyBindings_error_binding ext _ card e herr
    have hres : resolveCard ext inv = .ok card := by simp [resolveCard, hsrc, hcard]
    exact ⟨msg, by simp only [renderCard, hres, hhb, herr]⟩
  · intro ext store inv i e hint ha hc hrender
    have haf : (trimChars i.action_id.data).isEmpty = false := by
      simpa [List.isEmpty_iff] using ha
    have hcf : (trimChars i.card_instance_id.data).isEmpty = false := by
      simpa [List.isEmpty_iff] using hc
    simp only [handleInteraction, hint, haf, hcf, Bool.false_eq_true, if_false, hrender]
  · intro ext store inv e hno hrender
    have hi : ((loadStateIfMissing store inv none).1).interaction = none := by
      obtain ⟨st, hst⟩ := loadState_shape store inv none
      rw [hst]; simpa using hno
    simp only [handleInvocation, hi, hrender]
  · exact fun ext store inv st e h => handleInteraction_error_store ext store inv st e h
  · exact fun ext store inv st e h => handleInvocation_error_store ext store inv st e h

theorem c1_witness :
    (∃ msg, renderCard extModel c1Inv = .error (.binding msg)) ∧
    handleInteraction extModel [] c1Inv =
      ([], .error (.binding "missing binding path: payload.missing")) ∧
    handleInvocation extModel [] c1PlainInv =
      ([], .error (.binding "missing binding path: payload.missing")) ∧
    ([] : Store) = [] :=
  ⟨c1_theorem.1 extModel c1Inv c1Card rfl rfl rfl
      (HasLeaf.objMem (List.Mem.head _) (HasLeaf.str (by decide))),
   c1_theorem.2.1 extModel [] c1Inv baseInteraction
      (.binding "missing binding path: payload.missing") rfl (by decide) (by decide) rfl,
   c1_theorem.2.2.1 extModel [] c1PlainInv
      (.binding "missing binding path: payload.missing") rfl rfl,
   c1_theorem.2.2.2.2 extModel [] c1PlainInv []
      (.binding "missing binding path: payload.missing") rfl⟩

/-- C2 (amended): for a non-interaction invocation whose render succeeds,
Warn mode returns the validation issues alongside the rendered card (in
render modes) without failing, and the invocation fails with a
card-validation error exactly when validation mode is Error and the issue
list is non-empty.  An invocation handled through the interaction path does
not escalate (see the counterexample). -/
theorem c2_theorem (ext : RenderExt) (store : Store) (inv : AdaptiveCardInvocation)
    (r : RenderOutcome)
    (hno : inv.interaction = none)
    (hr : renderCard ext (loadStateIfMissing store inv none).1 = .ok r) :
    (inv.validation_mode = .warn →
      handleInvocation ext store inv = (store, .ok
        { rendered_card := match inv.mode with | .validate => none | _ => some r.card
          event := none
          state_updates := []
          session_updates := []
          card_features := r.features
          validation_issues := r.validation_issues
          telemetry_events := [] })) ∧
    ((handleInvocation ext store inv).2 = .error (.cardValidation r.validation_issues) ↔
      (inv.validation_mode = .error ∧ r.validation_issues ≠ [])) := by
  obtain ⟨st, hst⟩ := loadState_shape store inv none
  have hi : ((loadStateIfMissing store inv none).1).interaction = none := by
    rw [hst]; simpa using hno
  have hvm : ((loadStateIfMissing store inv none).1).validation_mode = inv.validation_mode := by
    rw [hst]
  have hmode : ((loadStateIfMissing store inv none).1).mode = inv.mode := by
    rw [hst]
  constructor
  · intro hwarn
    simp only [handleInvocation, hi, hr, hvm, hwarn, hmode]
    simp
  · by_cases hcond : inv.validation_mode = .error ∧ r.validation_issues ≠ []
    · have hval : ((loadStateIfMissing store inv none).1).validation_mode = .error := by
        rw [hvm]; exact hcond.1
      have hissues : r.validation_issues.isEmpty = false := by
        simpa [List.isEmpty_iff] using hcond.2
      simp only [handleInvocation, hi, hr, hval, hissues]
      simp [hcond.1, hcond.2]
    · have hcond' : ¬(((loadStateIfMissing store inv none).1).validation_mode = .error ∧
          r.validation_issues.isEmpty = false) := by
        rw [hvm]
        rintro ⟨h1, h2⟩
        exact hcond ⟨h1, by simpa [List.isEmpty_iff] using h2⟩
      simp only [handleInvocation, hi, hr]
      rw [if_neg hcond']
      simp only []
      constructor
      · intro hcontra; simp at hcontra
      · intro hc; exact absurd hc hcond

/-- C2 counterexample: an invocation that carries an enabled Submit
interaction, validation mode Error and an inline card that yields the
non-empty issue list [invalid-type, missing-version] does not fail — the
interaction path returns the issues alongside the rendered card, so Error
mode with non-empty issues does not always escalate. -/
theorem c2_counterexample :
    ({ baseInv with interaction := some baseInteraction, validation_mode := .error } :
        AdaptiveCardInvocation).validation_mode = ValidationMode.error ∧
    (handleInvocation extModel []
      { baseInv with interaction := some baseInteraction, validation_mode := .error }).2 =
      .ok { rendered_card := some (.obj [])
            event := some { action_type := .submit, action_id := "a1", verb := none,
                            route := none, inputs := .obj [], card_id := "inst-1",
                            card_instance_id := "inst-1", subcard_id := none, metadata := .null }
            state_updates := [.merge "form_data" (.obj [])]
            session_updates := []
            card_features := { version := none, used_elements := [], used_actions := [],
                               uses_show_card := false, uses_toggle_visibility := false,
                               uses_media := false, uses_auth := false,
                               requires_features := .null }
            validation_issues := [⟨"invalid-type", "Root type must be AdaptiveCard", "/type"⟩,
              ⟨"missing-version", "AdaptiveCard must include a version", "/version"⟩]
            telemetry_events := [] } ∧
    ([⟨"invalid-type", "Root type must be AdaptiveCard", "/type"⟩,
      ⟨"missing-version", "AdaptiveCard must include a version", "/version"⟩] :
        List ValidationIssue) ≠ [] := by
  refine ⟨rfl, rfl, ?_⟩
  simp

theorem c2_witness :
    handleInvocation extModel [] baseInv = ([], .ok
      { rendered_card := some (.obj [])
        event := none
        state_updates := []
        session_updates := []
        card_features := analyzeFeatures (.obj [])
        validation_issues := validateCard (.obj [])
        telemetry_events := [] }) := by
  have h := (c2_theorem extModel [] baseInv
    { card := .obj []
      features := analyzeFeatures (.obj [])
      validation_issues := validateCard (.obj []) } rfl rfl).1 rfl
  exact h

theorem loadState_strip (store : Store) (inv : AdaptiveCardInvocation) :
    (loadStateIfMissing store { inv with interaction := none } none).1 =
      { (loadStateIfMissing store inv none).1 with interaction := none } := by
  obtain ⟨sa, hsa⟩ := loadState_shape store inv none
  obtain ⟨sb, hsb⟩ := loadState_shape store { inv with interaction := none } none
  have hstate : ((loadStateIfMissing store { inv with interaction := none } none).1).state =
      ((loadStateIfMissing store inv none).1).state := by
    unfold loadStateIfMissing
    rw [show ({ inv with interaction := none } : AdaptiveCardInvocation).state = inv.state
        from rfl,
      show stateKey { inv with interaction := none } none = stateKey inv none from rfl]
    split
    · rfl
    · split <;> rfl
  rw [hsa, hsb] at hstate ⊢
  have hs2 : sb = sa := hstate
  rw [hs2]

/-- C10: an invocation whose interaction has enabled set to false behaves
exactly like the same invocation with the interaction removed — a plain
render whose result carries no action event, no state updates and no
session updates, and whose store is untouched (no interaction-driven
persistence). -/
theorem c10_theorem (ext : RenderExt) (store : Store) (inv : AdaptiveCardInvocation)
    (i : CardInteraction)
    (hint : inv.interaction = some i) (hdis : i.enabled = some false) :
    handleInvocation ext store inv = handleInvocation ext store { inv with interaction := none } ∧
    (∀ st res, handleInvocation ext store inv = (st, .ok res) →
      res.event = none ∧ res.state_updates = [] ∧ res.session_updates = [] ∧ st = store) := by
  have hi1 : ((loadStateIfMissing store inv none).1).interaction = some i := by
    obtain ⟨st, hst⟩ := loadState_shape store inv none
    rw [hst]; simpa using hint
  have hi2 : ((loadStateIfMissing store { inv with interaction := none } none).1).interaction =
      none := by
    rw [loadState_strip]
  have hmain : handleInvocation ext store inv =
      handleInvocation ext store { inv with interaction := none } := by
    simp only [handleInvocation, hi1, hi2, hdis, loadState_strip]
    simp
  refine ⟨hmain, ?_⟩
  intro st res h
  rw [hmain] at h
  simp only [handleInvocation, hi2] at h
  split at h
  · simp at h
  · split at h
    · simp at h
    · rw [Prod.mk.injEq] at h
      obtain ⟨h1, h2⟩ := h
      injection h2 with h4
      subst h4
      exact ⟨rfl, rfl, rfl, h1.symm⟩

theorem c10_witness :
    handleInvocation extModel [] c10Inv =
      handleInvocation extModel [] { c10Inv with interaction := none } ∧
    (∀ st res, handleInvocation extModel [] c10Inv = (st, .ok res) →
      res.event = none ∧ res.state_updates = [] ∧ res.session_updates = [] ∧ st = []) :=
  c10_theorem extModel [] c10Inv c10Interaction rfl rfl

/-- C4: a Submit interaction with non-empty action and card-instance ids and
raw inputs containing the single key comment with value x produces exactly
one state update — a Merge at form_data whose value is the normalized input
object, which contains the key comment — and an action event whose
action_id equals the interaction's and whose inputs equal the normalized
raw inputs. -/
theorem c4_theorem (ext : RenderExt) (store : Store) (inv : AdaptiveCardInvocation)
    (i : CardInteraction) (r : RenderOutcome)
    (hint : inv.interaction = some i)
    (htype : i.interaction_type = .submit)
    (ha : trimChars i.action_id.data ≠ [])
    (hc : trimChars i.card_instance_id.data ≠ [])
    (hraw : i.raw_inputs = .obj [("comment", .str "x")])
    (hr : renderCard ext (loadStateIfMissing store inv (some i)).1 = .ok r) :
    ∃ st res ev, handleInteraction ext store inv = (st, .ok res) ∧
      res.state_updates = [.merge "form_data" (.obj [("comment", Value.str "x")])] ∧
      res.event = some ev ∧
      ev.action_id = i.action_id ∧
      ev.inputs = normalizeInputs i.raw_inputs ∧
      ev.inputs = .obj [("comment", Value.str "x")] ∧
      lookupEntry [("comment", Value.str "x")] "comment" = some (Value.str "x") := by
  have haf : (trimChars i.action_id.data).isEmpty = false := by
    simpa [List.isEmpty_iff] using ha
  have hcf : (trimChars i.card_instance_id.data).isEmpty = false := by
    simpa [List.isEmpty_iff] using hc
  have hnorm : normalizeInputs i.raw_inputs = .obj [("comment", Value.str "x")] := by
    rw [hraw]; rfl
  simp only [handleInteraction, hint, haf, hcf, Bool.false_eq_true, if_false, hr, htype, hnorm]
  exact ⟨_, _, _, rfl, rfl, rfl, rfl, rfl, rfl, rfl⟩

theorem c4_witness :
    ∃ st res ev, handleInteraction extModel [] c4Inv = (st, .ok res) ∧
      res.state_updates = [.merge "form_data" (.obj [("comment", Value.str "x")])] ∧
      res.event = some ev ∧
      ev.action_id = c4Interaction.action_id ∧
      ev.inputs = normalizeInputs c4Interaction.raw_inputs ∧
      ev.inputs = .obj [("comment", Value.str "x")] ∧
      lookupEntry [("comment", Value.str "x")] "comment" = some (Value.str "x") :=
  c4_theorem extModel [] c4Inv c4Interaction
    { card := .obj []
      features := analyzeFeatures (.obj [])
      validation_issues := validateCard (.obj []) }
    rfl rfl (by decide) (by decide) rfl rfl
